import Mathlib

/-!
# The mapreduce NIF (`src/mapreduce/mapreduce_nif.cc`)

A shallow embedding of the Erlang NIF glue of the map/reduce engine: the
marshalling loops of `doMapDoc`, `doReduce` and `doRereduce`, the error
constructor `makeError`, the context registry (`registerContext`,
`unregisterContext`) and the body of the watchdog `terminatorLoop`.

Conventions of the embedding.

* An Erlang term (`ERL_NIF_TERM`) is a value of `Term`.  A byte string
  (`json_bin_t`, `ErlNifBinary`, `std::string`) is a list of bytes.
* `enif_alloc_binary_compat` may fail.  Its outcomes are given by an oracle
  `alloc : Nat → Bool` (the outcome of the call number `n` of the NIF call) and
  every function that allocates threads the number of calls made so far.
* The script engine (`mapreduce.h`: `initContext`, `mapDoc`, `runReduce`,
  `runRereduce`, `terminateTask`) is not part of the file; it is a parameter
  (`Engine`), and a call of it either returns or throws.
* A context pointer (`map_reduce_ctx_t *`) is a natural number.
* The global `contexts` (`std::map`) is the list of its entries; the field
  `taskStartTime` of the contexts is a function from context pointers to
  integers.  The product of line 503 is computed in `clock_t`, a signed
  integer of `bits` bits, and wraps around when it does not fit.
  The subtraction of the scan is over the mathematical integers: it takes a
  positive `taskStartTime` from `now`, which does not overflow a `long` when
  `now` is not negative.
* The `new std::string` of `registerContext` and the insertion into
  `contexts` are taken to succeed.
-/

namespace MapReduceNif

/-! ## Erlang terms and the `enif_*` primitives -/

/-- A byte of a binary. -/
abbrev Byte := Fin 256

/-- A byte string: the `data`/`length` pair of `json_bin_t` and `ErlNifBinary`,
and the content of a `std::string`. -/
abbrev Bytes := List Byte

/-- Erlang terms, as far as the NIF inspects or builds them. -/
inductive Term where
  | atom (name : String)
  | int (n : Int)
  | binary (bytes : Bytes)
  | tuple (elems : List Term)
  | nil
  | cons (head tail : Term)
  | resource (type : String) (ptr : Nat)
  | other (tag : Nat)

/-- What a NIF hands back to the emulator: a term, or the `badarg` exception
raised through `enif_make_badarg`. -/
inductive NifResult where
  | badarg
  | term (t : Term)

/-- The atoms made in `onLoad`. -/
def ATOM_OK : Term := Term.atom "ok"

/-- The atom `error` made in `onLoad`. -/
def ATOM_ERROR : Term := Term.atom "error"

/-- The name under which `onLoad` opens the resource type. -/
def MAP_REDUCE_CTX_RES : String := "map_reduce_context"

/-- The bytes of a C string literal. -/
def strBytes (s : String) : Bytes := s.toList.map (fun c => Fin.ofNat c.toNat)

/-- The Erlang list with the given elements (`enif_make_list_cell` folded over
the elements, ending in `enif_make_list(env, 0)`). -/
def Term.ofList : List Term → Term
  | [] => Term.nil
  | t :: ts => Term.cons t (Term.ofList ts)

/-- The primitive `enif_make_tuple2`. -/
def enif_make_tuple2 (a b : Term) : Term := Term.tuple [a, b]

/-- The primitive `enif_is_list`: the empty list or a list cell. -/
def enif_is_list : Term → Bool
  | Term.nil => true
  | Term.cons _ _ => true
  | _ => false

/-- The primitive `enif_get_int`: an integer that fits a C `int`. -/
def enif_get_int : Term → Option Int
  | Term.int n => if -2147483648 ≤ n ∧ n ≤ 2147483647 then some n else none
  | _ => none

/-- The primitive `enif_get_resource` for the resource type of this module. -/
def enif_get_resource : Term → Option Nat
  | Term.resource ty p => if ty = MAP_REDUCE_CTX_RES then some p else none
  | _ => none

/-- The primitive `enif_inspect_iolist_as_binary`: a binary, or a list whose
elements are bytes, binaries or such lists and whose tail is the empty list or
a binary; the result is the concatenation of the bytes. -/
def enif_inspect_iolist_as_binary : Term → Option Bytes
  | Term.binary b => some b
  | Term.nil => some []
  | Term.cons h t =>
    let hd : Option Bytes :=
      match h with
      | Term.int n => if 0 ≤ n ∧ n < 256 then some [Fin.ofNat n.toNat] else none
      | Term.binary b => some b
      | Term.nil => some []
      | Term.cons a b => enif_inspect_iolist_as_binary (Term.cons a b)
      | _ => none
    let tl : Option Bytes :=
      match t with
      | Term.binary b => some b
      | Term.nil => some []
      | Term.cons a b => enif_inspect_iolist_as_binary (Term.cons a b)
      | _ => none
    match hd, tl with
    | some x, some y => some (x ++ y)
    | _, _ => none
  | _ => none

/-! ## Allocation and `makeError` -/

/-- The primitive `enif_alloc_binary_compat`, call number `n` of the NIF call:
whether it succeeded, and the number of calls made afterwards. -/
def enif_alloc_binary_compat (alloc : Nat → Bool) (n : Nat) : Bool × Nat :=
  (alloc n, n + 1)

/-- Function `makeError(env, msg)`: `{error, Msg}`, or the bare atom `error` when the
binary for the message cannot be allocated. -/
def makeError (alloc : Nat → Bool) (n : Nat) (msg : Bytes) : Term :=
  if !(enif_alloc_binary_compat alloc n).1 then
    ATOM_ERROR
  else
    enif_make_tuple2 ATOM_ERROR (Term.binary msg)

/-- The message of the allocation failures. -/
def allocFailureMsg : Bytes := strBytes "memory allocation failure"

/-! ## The engine -/

/-- What an engine call can throw: `MapReduceError` with its message, or
`std::bad_alloc`. -/
inductive EngineExc where
  | mapReduceError (msg : Bytes)
  | badAlloc

/-- A key/value pair emitted by a map function (`map_result_t`). -/
abbrev MapResult := Bytes × Bytes

/-- The engine functions declared in `mapreduce.h`, which the NIF calls. -/
structure Engine where
  initContext : Nat → List Bytes → Except EngineExc Unit
  mapDoc : Nat → Bytes → Bytes → Except EngineExc (List (List MapResult))
  runReduce : Nat → List Bytes → List Bytes → Except EngineExc (List Bytes)
  runReduceNth : Nat → Int → List Bytes → List Bytes → Except EngineExc Bytes
  runRereduce : Nat → Int → List Bytes → Except EngineExc Bytes

/-- The two `catch` clauses that end every `try` block of the NIF. -/
def catchExc (alloc : Nat → Bool) (n : Nat) : EngineExc → NifResult
  | EngineExc.mapReduceError msg => NifResult.term (makeError alloc n msg)
  | EngineExc.badAlloc => NifResult.term (makeError alloc n allocFailureMsg)

/-! ## `doMapDoc` -/

/-- The variables of the loops of `doMapDoc` that outlive one inner pass:
`allocError` and the number of allocation calls made. -/
structure LoopFlags where
  allocError : Bool
  allocs : Nat

/-- One pass of the inner loop of `doMapDoc` (lines 140-171), on one pair. -/
def mapInnerStep (alloc : Nat → Bool) (st : Term × LoopFlags) (kv : MapResult) :
    Term × LoopFlags :=
  let innerList := st.1
  let fl := st.2
  if !fl.allocError then
    let r1 := enif_alloc_binary_compat alloc fl.allocs
    if !r1.1 then
      (innerList, { allocError := true, allocs := r1.2 })
    else
      let r2 := enif_alloc_binary_compat alloc r1.2
      if !r2.1 then
        (innerList, { allocError := true, allocs := r2.2 })
      else
        let kvPair := enif_make_tuple2 (Term.binary kv.1) (Term.binary kv.2)
        (Term.cons kvPair innerList, { allocError := false, allocs := r2.2 })
  else
    (innerList, fl)

/-- The inner loop of `doMapDoc`: the pairs of one function from the last to
the first (`rbegin` to `rend`), starting from the empty list. -/
def mapInnerLoop (alloc : Nat → Bool) (funResults : List MapResult) (fl : LoopFlags) :
    Term × LoopFlags :=
  funResults.reverse.foldl (mapInnerStep alloc) (Term.nil, fl)

/-- One pass of the outer loop of `doMapDoc` (lines 135-176). -/
def mapOuterStep (alloc : Nat → Bool) (st : Term × LoopFlags) (funResults : List MapResult) :
    Term × LoopFlags :=
  let outerList := st.1
  let r := mapInnerLoop alloc funResults st.2
  if !r.2.allocError then
    (Term.cons r.1 outerList, r.2)
  else
    (outerList, r.2)

/-- The outer loop of `doMapDoc`, from the last function to the first. -/
def mapOuterLoop (alloc : Nat → Bool) (mapResults : List (List MapResult)) : Term × LoopFlags :=
  mapResults.reverse.foldl (mapOuterStep alloc) (Term.nil, { allocError := false, allocs := 0 })

/-- The conversion of the engine result inside the `try` block of `doMapDoc`
(lines 131-182). -/
def mapResultsToTerm (alloc : Nat → Bool) (mapResults : List (List MapResult)) : Term :=
  let r := mapOuterLoop alloc mapResults
  if r.2.allocError then
    makeError alloc r.2.allocs allocFailureMsg
  else
    enif_make_tuple2 ATOM_OK r.1

/-- Function `doMapDoc(env, 3, argv)`. -/
def doMapDoc (eng : Engine) (alloc : Nat → Bool) (argv0 argv1 argv2 : Term) : NifResult :=
  match enif_get_resource argv0 with
  | none => NifResult.badarg
  | some ctx =>
    match enif_inspect_iolist_as_binary argv1 with
    | none => NifResult.badarg
    | some doc =>
      match enif_inspect_iolist_as_binary argv2 with
      | none => NifResult.badarg
      | some meta =>
        match eng.mapDoc ctx doc meta with
        | Except.error e => catchExc alloc 0 e
        | Except.ok mapResults => NifResult.term (mapResultsToTerm alloc mapResults)

/-- The list of lists of `{Key, Value}` tuples that stands for an engine
result: one inner list per function, one tuple per pair, in order. -/
def pairsTerm (funResults : List MapResult) : Term :=
  Term.ofList (funResults.map (fun kv => Term.tuple [Term.binary kv.1, Term.binary kv.2]))

/-- The term of a whole map result. -/
def mapResultsTerm (mapResults : List (List MapResult)) : Term :=
  Term.ofList (mapResults.map pairsTerm)

/-! ## `doReduce` and `doRereduce` -/

/-- The primitive `enif_get_tuple`: the elements of a tuple (its `arity` is
their number). -/
def enif_get_tuple : Term → Option (List Term)
  | Term.tuple elems => some elems
  | _ => none

/-- The input loop of `doReduce` (lines 247-273): every list cell must hold a
2-tuple of iolists; `none` stands for `return enif_make_badarg(env)`.  The loop
ends at the first term that is not a list cell. -/
def reduceInputLoop : Term → List Bytes → List Bytes → Option (List Bytes × List Bytes)
  | Term.cons head tail, keys, values =>
    match enif_get_tuple head with
    | none => none
    | some array =>
      if array.length ≠ 2 then none
      else
        match enif_inspect_iolist_as_binary (array.getD 0 Term.nil) with
        | none => none
        | some key =>
          match enif_inspect_iolist_as_binary (array.getD 1 Term.nil) with
          | none => none
          | some value => reduceInputLoop tail (keys ++ [key]) (values ++ [value])
  | _, keys, values => some (keys, values)

/-- One pass of the result loop of the unindexed `doReduce` (lines 283-297). -/
def reduceStep (alloc : Nat → Bool) (st : Term × LoopFlags) (reduction : Bytes) :
    Term × LoopFlags :=
  let list := st.1
  let fl := st.2
  if !fl.allocError then
    let r := enif_alloc_binary_compat alloc fl.allocs
    if !r.1 then
      (list, { allocError := true, allocs := r.2 })
    else
      (Term.cons (Term.binary reduction) list, { allocError := false, allocs := r.2 })
  else
    (list, fl)

/-- The result loop of the unindexed `doReduce`, from the last reduction to the
first. -/
def reduceLoop (alloc : Nat → Bool) (results : List Bytes) : Term × LoopFlags :=
  results.reverse.foldl (reduceStep alloc) (Term.nil, { allocError := false, allocs := 0 })

/-- The conversion of the reductions in the branch `reduceFunNum == -1`
(lines 279-303). -/
def reductionsToTerm (alloc : Nat → Bool) (results : List Bytes) : Term :=
  let r := reduceLoop alloc results
  if r.2.allocError then
    makeError alloc r.2.allocs allocFailureMsg
  else
    enif_make_tuple2 ATOM_OK r.1

/-- The conversion of a single reduction (lines 307-316 and 364-373). -/
def reductionToTerm (alloc : Nat → Bool) (result : Bytes) : Term :=
  let r := enif_alloc_binary_compat alloc 0
  if !r.1 then
    makeError alloc r.2 allocFailureMsg
  else
    enif_make_tuple2 ATOM_OK (Term.binary result)

/-- The `try` block of `doReduce` (lines 275-323). -/
def reduceBody (eng : Engine) (alloc : Nat → Bool) (ctx : Nat) (reduceFunNum : Int)
    (keys values : List Bytes) : NifResult :=
  if reduceFunNum = -1 then
    match eng.runReduce ctx keys values with
    | Except.error e => catchExc alloc 0 e
    | Except.ok results => NifResult.term (reductionsToTerm alloc results)
  else
    match eng.runReduceNth ctx reduceFunNum keys values with
    | Except.error e => catchExc alloc 0 e
    | Except.ok result => NifResult.term (reductionToTerm alloc result)

/-- Function `doReduce(env, argc, argv)`, registered for `reduce/2` and `reduce/3`.
`argv2` is read only when `argv1` is an integer; for `reduce/2` it stands for
whatever lies behind the two arguments. -/
def doReduce (eng : Engine) (alloc : Nat → Bool) (argv0 argv1 argv2 : Term) : NifResult :=
  match enif_get_resource argv0 with
  | none => NifResult.badarg
  | some ctx =>
    let sel : Option (Int × Term) :=
      match enif_get_int argv1 with
      | none => if !enif_is_list argv1 then none else some (-1, argv1)
      | some n => if !enif_is_list argv2 then none else some (n, argv2)
    match sel with
    | none => NifResult.badarg
    | some (reduceFunNum, tail) =>
      match reduceInputLoop tail [] [] with
      | none => NifResult.badarg
      | some (keys, values) => reduceBody eng alloc ctx reduceFunNum keys values

/-- The input loop of `doRereduce` (lines 349-359). -/
def rereduceInputLoop : Term → List Bytes → Option (List Bytes)
  | Term.cons head tail, reductions =>
    match enif_inspect_iolist_as_binary head with
    | none => none
    | some reduction => rereduceInputLoop tail (reductions ++ [reduction])
  | _, reductions => some reductions

/-- Function `doRereduce(env, 3, argv)`. -/
def doRereduce (eng : Engine) (alloc : Nat → Bool) (argv0 argv1 argv2 : Term) : NifResult :=
  match enif_get_resource argv0 with
  | none => NifResult.badarg
  | some ctx =>
    match enif_get_int argv1 with
    | none => NifResult.badarg
    | some reduceFunNum =>
      if !enif_is_list argv2 then NifResult.badarg
      else
        match rereduceInputLoop argv2 [] with
        | none => NifResult.badarg
        | some reductions =>
          match eng.runRereduce ctx reduceFunNum reductions with
          | Except.error e => catchExc alloc 0 e
          | Except.ok result => NifResult.term (reductionToTerm alloc result)

/-! ## The context registry -/

/-- The assignment `m[k] = v` of `std::map`, on the list of its entries in key
order: the value of an equal key is replaced, a new key is put in its
place. -/
def mapAssign (m : List (Bytes × Nat)) (k : Bytes) (v : Nat) : List (Bytes × Nat) :=
  match m with
  | [] => [(k, v)]
  | e :: rest =>
    if k = e.1 then (k, v) :: rest
    else if k < e.1 then (k, v) :: e :: rest
    else e :: mapAssign rest k v

/-- The call `m.erase(k)` of `std::map`. -/
def mapErase (m : List (Bytes × Nat)) (k : Bytes) : List (Bytes × Nat) :=
  m.filter (fun e => decide (e.1 ≠ k))

/-- The call `m.find(k)` of `std::map`. -/
def mapFind (m : List (Bytes × Nat)) (k : Bytes) : Option Nat :=
  (m.find? (fun e => decide (e.1 = k))).map Prod.snd

/-- The keys of the map. -/
def mapKeys (m : List (Bytes × Nat)) : List Bytes := m.map Prod.fst

/-- The global `contexts` and, for every context pointer, its field `key`
(`none`: not set, or deleted). -/
structure NifState where
  contexts : List (Bytes × Nat)
  ctxKey : Nat → Option Bytes

/-- The state after `onLoad`. -/
def NifState.init : NifState := { contexts := [], ctxKey := fun _ => none }

/-- Function `registerContext(ctx, env, refTerm)`; the error is the `MapReduceError`
it throws. -/
def registerContext (s : NifState) (ctx : Nat) (refTerm : Term) : Except EngineExc NifState :=
  match enif_inspect_iolist_as_binary refTerm with
  | none => Except.error (EngineExc.mapReduceError (strBytes "invalid context reference"))
  | some ref =>
    Except.ok
      { contexts := mapAssign s.contexts ref ctx
        ctxKey := fun c => if c = ctx then some ref else s.ctxKey c }

/-- Function `unregisterContext(ctx)`; `none` when `ctx->key` does not point to a
string, where the behaviour of `*ctx->key` is undefined. -/
def unregisterContext (s : NifState) (ctx : Nat) : Option NifState :=
  match s.ctxKey ctx with
  | none => none
  | some key =>
    some
      { contexts := mapErase s.contexts key
        ctxKey := fun c => if c = ctx then none else s.ctxKey c }

/-- Function `binToFunctionString`: the source between parentheses. -/
def binToFunctionString (bin : Bytes) : Bytes := strBytes "(" ++ bin ++ strBytes ")"

/-- The loop of `parseFunctions` (lines 451-459); `none` for `return false`. -/
def parseFunctionsLoop : Term → List Bytes → Option (List Bytes)
  | Term.cons head tail, result =>
    match enif_inspect_iolist_as_binary head with
    | none => none
    | some funBin => parseFunctionsLoop tail (result ++ [binToFunctionString funBin])
  | _, result => some result

/-- Function `parseFunctions(env, functionsArg, result)`; `none` for `false`. -/
def parseFunctions (functionsArg : Term) : Option (List Bytes) :=
  if !enif_is_list functionsArg then none else parseFunctionsLoop functionsArg []

/-- Function `startMapContext(env, 2, argv)`, `ctx` being the pointer that
`enif_alloc_resource` returned. -/
def startMapContext (eng : Engine) (alloc : Nat → Bool) (s : NifState) (ctx : Nat)
    (argv0 argv1 : Term) : NifResult × NifState :=
  match parseFunctions argv0 with
  | none => (NifResult.badarg, s)
  | some mapFunctions =>
    match eng.initContext ctx mapFunctions with
    | Except.error e => (catchExc alloc 0 e, s)
    | Except.ok _ =>
      match registerContext s ctx argv1 with
      | Except.error e => (catchExc alloc 0 e, s)
      | Except.ok s1 =>
        (NifResult.term (enif_make_tuple2 ATOM_OK (Term.resource MAP_REDUCE_CTX_RES ctx)), s1)

/-- Function `startReduceContext(env, 2, argv)`. -/
def startReduceContext (eng : Engine) (alloc : Nat → Bool) (s : NifState) (ctx : Nat)
    (argv0 argv1 : Term) : NifResult × NifState :=
  match parseFunctions argv0 with
  | none => (NifResult.badarg, s)
  | some reduceFunctions =>
    match eng.initContext ctx reduceFunctions with
    | Except.error e => (catchExc alloc 0 e, s)
    | Except.ok _ =>
      match registerContext s ctx argv1 with
      | Except.error e => (catchExc alloc 0 e, s)
      | Except.ok s1 =>
        (NifResult.term (enif_make_tuple2 ATOM_OK (Term.resource MAP_REDUCE_CTX_RES ctx)), s1)

/-! ## The watchdog -/

/-- One pass of the `for` loop of `terminatorLoop` (lines 506-514);
`terminateTask(ctx)` is recorded in the list of the contexts it was called
on. -/
def terminatorStep (taskStartTime : Nat → Int) (now maxTaskDuration : Int)
    (terminated : List Nat) (entry : Bytes × Nat) : List Nat :=
  let ctx := entry.2
  if taskStartTime ctx > 0 then
    if now - taskStartTime ctx ≥ maxTaskDuration then
      terminated ++ [ctx]
    else
      terminated
  else
    terminated

/-- The scan of `terminatorLoop` under the lock: the contexts on which
`terminateTask` is called, in the order of the calls. -/
def terminatorScan (contexts : List (Bytes × Nat)) (taskStartTime : Nat → Int)
    (now maxTaskDuration : Int) : List Nat :=
  contexts.foldl (terminatorStep taskStartTime now maxTaskDuration) []

/-- The two expansions of the name `doSleep` (lines 25-31). -/
inductive Platform where
  | windows
  | unix
  deriving DecidableEq

/-- The time, in microseconds, for which `doSleep(arg)` suspends the thread:
`Sleep` takes a `DWORD` of milliseconds, `usleep` a `useconds_t` of
microseconds, both 32-bit unsigned. -/
def doSleep (p : Platform) (arg : Int) : Nat :=
  match p with
  | Platform.windows => (arg % 4294967296).toNat * 1000
  | Platform.unix => (arg % 4294967296).toNat

/-- The time, in microseconds, that one cycle of `terminatorLoop` asks to sleep
for (line 517). -/
def terminatorSleep (p : Platform) (maxTaskDuration : Int) : Nat :=
  doSleep p maxTaskDuration

/-! ## Auxiliary definitions: loop results, registry calls, lifetimes, samples -/

/-- The elements `ts` put in front of the list `acc`, one cell each. -/
def consAll (ts : List Term) (acc : Term) : Term := ts.foldr Term.cons acc

/-- The term of one key/value pair. -/
def kvTerm (kv : MapResult) : Term := Term.tuple [Term.binary kv.1, Term.binary kv.2]

/-- The flags of a loop that stopped converting: among the `m` allocations
from call `n` on, call `n + j` is the first that failed, and no call was made
after it. -/
def FailedAt (alloc : Nat → Bool) (n m : Nat) (fl : LoopFlags) : Prop :=
  fl.allocError = true ∧
    ∃ j, j < m ∧ alloc (n + j) = false ∧ (∀ i, i < j → alloc (n + i) = true) ∧
      fl.allocs = n + j + 1

/-- The number of pairs of a map result. -/
def pairCount (mapResults : List (List MapResult)) : Nat := (mapResults.map List.length).sum

/-- A call of one of the two registry functions. -/
inductive RegistryCall where
  | register (ctx : Nat) (refTerm : Term)
  | unregister (ctx : Nat)

/-- The effect of one call on the state; a `registerContext` that throws
leaves the state as it was. -/
def applyCall (s : NifState) : RegistryCall → Option NifState
  | RegistryCall.register ctx refTerm =>
    match registerContext s ctx refTerm with
    | Except.ok s1 => some s1
    | Except.error _ => some s
  | RegistryCall.unregister ctx => unregisterContext s ctx

/-- The effect of a sequence of calls. -/
def runCalls (s : NifState) : List RegistryCall → Option NifState
  | [] => some s
  | c :: cs =>
    match applyCall s c with
    | none => none
    | some s1 => runCalls s1 cs

/-- The lifetimes of the contexts, as the calls define them: `live` holds the
contexts registered and not yet unregistered, each with its id, and `seen` the
contexts `registerContext` was called on. -/
structure Lifetimes where
  live : List (Nat × Bytes)
  seen : List Nat

/-- No call yet. -/
def Lifetimes.init : Lifetimes := { live := [], seen := [] }

/-- The ids of the live contexts. -/
def Lifetimes.liveIds (g : Lifetimes) : List Bytes := g.live.map Prod.snd

/-- One call; `none` when it breaks the discipline: a context is registered
once, and unregistered at most once, after it was registered. -/
def Lifetimes.step (g : Lifetimes) : RegistryCall → Option Lifetimes
  | RegistryCall.register ctx refTerm =>
    if ctx ∈ g.seen then none
    else
      match enif_inspect_iolist_as_binary refTerm with
      | none => some { live := g.live, seen := ctx :: g.seen }
      | some id => some { live := (ctx, id) :: g.live, seen := ctx :: g.seen }
  | RegistryCall.unregister ctx =>
    if ctx ∈ g.live.map Prod.fst then
      some { live := g.live.filter (fun e => decide (e.1 ≠ ctx)), seen := g.seen }
    else none

/-- A sequence of calls; `none` when one of them breaks the discipline. -/
def Lifetimes.run (g : Lifetimes) : List RegistryCall → Option Lifetimes
  | [] => some g
  | c :: cs =>
    match g.step c with
    | none => none
    | some g1 => Lifetimes.run g1 cs

/-- Whether a call is not a `registerContext` under the id of a live
context. -/
def callFresh (g : Lifetimes) : RegistryCall → Bool
  | RegistryCall.register _ refTerm =>
    match enif_inspect_iolist_as_binary refTerm with
    | none => true
    | some id => decide (id ∉ g.liveIds)
  | RegistryCall.unregister _ => true

/-- Whether every `registerContext` of the sequence uses an id that no live
context has at that moment. -/
def freshIds (g : Lifetimes) : List RegistryCall → Bool
  | [] => true
  | c :: cs =>
    callFresh g c &&
    (match g.step c with
      | none => true
      | some g1 => freshIds g1 cs)

/-- The relation between the state of the NIF and the lifetimes of the
contexts. -/
structure RegistryInv (s : NifState) (g : Lifetimes) : Prop where
  entries : ∀ id ctx, (id, ctx) ∈ s.contexts ↔ (ctx, id) ∈ g.live
  keys : ∀ ctx id, s.ctxKey ctx = some id ↔ (ctx, id) ∈ g.live
  seen : ∀ ctx id, (ctx, id) ∈ g.live → ctx ∈ g.seen
  distinct : ∀ c1 c2 id, (c1, id) ∈ g.live → (c2, id) ∈ g.live → c1 = c2

/-- The results a NIF of this module can hand back: `badarg`, `{ok, _}`,
`{error, Message}`, or the bare atom `error`, the last only when an allocation
failed. -/
def IsNifOutcome (alloc : Nat → Bool) (r : NifResult) : Prop :=
  r = NifResult.badarg ∨
    (∃ t, r = NifResult.term (Term.tuple [Term.atom "ok", t])) ∨
    (∃ msg, r = NifResult.term (Term.tuple [Term.atom "error", Term.binary msg])) ∨
    (r = NifResult.term (Term.atom "error") ∧ ∃ n, alloc n = false)

/-- The value that `makeError(env, msg)` returns when its allocation is call
number `n`: `{error, Msg}`, or the bare atom `error` when that allocation
fails. -/
def failureTerm (alloc : Nat → Bool) (n : Nat) (msg : Bytes) : Term :=
  if alloc n = true then Term.tuple [Term.atom "error", Term.binary msg] else Term.atom "error"

/-- The message that the `catch` clauses report for an exception: the message
of a `MapReduceError`, "memory allocation failure" for `std::bad_alloc`. -/
def excMessage : EngineExc → Bytes
  | EngineExc.mapReduceError msg => msg
  | EngineExc.badAlloc => allocFailureMsg

/-- An engine with two reduce functions that return `r1` and `r2`, and one map
function that emits `{k1, v1}` followed by a function that emits nothing. -/
def sampleEngine : Engine :=
  { initContext := fun _ _ => Except.ok ()
    mapDoc := fun _ _ _ => Except.ok [[(strBytes "k1", strBytes "v1")], []]
    runReduce := fun _ _ _ => Except.ok [strBytes "r1", strBytes "r2"]
    runReduceNth := fun _ n _ _ =>
      if n = 0 then Except.ok (strBytes "r1")
      else if n = 1 then Except.ok (strBytes "r2")
      else Except.error (EngineExc.mapReduceError (strBytes "invalid reduce function number"))
    runRereduce := fun _ _ reductions => Except.ok reductions.flatten }

/-- A handle of context 7. -/
def sampleCtx : Term := Term.resource MAP_REDUCE_CTX_RES 7

/-- A registry in which context 1 is registered under the id `k`. -/
def sampleState : NifState :=
  { contexts := [(strBytes "k", 1)]
    ctxKey := fun c => if c = 1 then some (strBytes "k") else none }

/-- Two contexts registered under the same id, then the first unregistered. -/
def sampleCalls : List RegistryCall :=
  [RegistryCall.register 1 (Term.binary (strBytes "k")),
   RegistryCall.register 2 (Term.binary (strBytes "k")),
   RegistryCall.unregister 1]

/-- Two contexts registered under different ids, then the first
unregistered. -/
def sampleCallsDistinct : List RegistryCall :=
  [RegistryCall.register 1 (Term.binary (strBytes "a")),
   RegistryCall.register 2 (Term.binary (strBytes "b")),
   RegistryCall.unregister 1]

/-! ## Lemmas -/

theorem consAll_nil (ts : List Term) : consAll ts Term.nil = Term.ofList ts := by
  induction ts with
  | nil => rfl
  | cons t ts ih => simp [consAll, Term.ofList] at ih ⊢; exact ih

theorem failedAt_mono {alloc : Nat → Bool} {n m m' : Nat} {fl : LoopFlags}
    (h : FailedAt alloc n m fl) (hm : m ≤ m') : FailedAt alloc n m' fl := by
  obtain ⟨h1, j, hj, h2, h3, h4⟩ := h
  exact ⟨h1, j, by omega, h2, h3, h4⟩

theorem failedAt_shift {alloc : Nat → Bool} {n k m : Nat} {fl : LoopFlags}
    (h : FailedAt alloc (n + k) m fl) (hk : ∀ i, i < k → alloc (n + i) = true) :
    FailedAt alloc n (k + m) fl := by
  obtain ⟨h1, j, hj, h2, h3, h4⟩ := h
  refine ⟨h1, k + j, by omega, ?_, ?_, ?_⟩
  · rw [← Nat.add_assoc]; exact h2
  · intro i hi
    by_cases hik : i < k
    · exact hk i hik
    · have := h3 (i - k) (by omega)
      rwa [Nat.add_assoc, Nat.add_sub_cancel' (by omega)] at this
  · rw [h4]; omega

theorem failedAt_exists_false {alloc : Nat → Bool} {n m : Nat} {fl : LoopFlags}
    (h : FailedAt alloc n m fl) : ∃ i, i < m ∧ alloc (n + i) = false := by
  obtain ⟨_, j, hj, h2, _, _⟩ := h
  exact ⟨j, hj, h2⟩

theorem mapInner_foldl_sticky (alloc : Nat → Bool) (l : List MapResult) (acc : Term) (n : Nat) :
    l.foldl (mapInnerStep alloc) (acc, { allocError := true, allocs := n }) =
      (acc, { allocError := true, allocs := n }) := by
  induction l with
  | nil => rfl
  | cons kv l ih => simpa [List.foldl_cons, mapInnerStep] using ih

theorem mapInner_foldl (alloc : Nat → Bool) (l : List MapResult) :
    ∀ (acc : Term) (n : Nat),
      (l.foldl (mapInnerStep alloc) (acc, { allocError := false, allocs := n }) =
          (consAll (l.reverse.map kvTerm) acc, { allocError := false, allocs := n + 2 * l.length }) ∧
        ∀ i, i < 2 * l.length → alloc (n + i) = true) ∨
      FailedAt alloc n (2 * l.length)
        (l.foldl (mapInnerStep alloc) (acc, { allocError := false, allocs := n })).2 := by
  induction l with
  | nil => intro acc n; left; simp [consAll]
  | cons kv l ih =>
    intro acc n
    rw [List.foldl_cons]
    cases h1 : alloc n with
    | false =>
      right
      have hs : mapInnerStep alloc (acc, { allocError := false, allocs := n }) kv =
          (acc, { allocError := true, allocs := n + 1 }) := by
        simp [mapInnerStep, enif_alloc_binary_compat, h1]
      rw [hs, mapInner_foldl_sticky]
      exact ⟨rfl, 0, by simp only [List.length_cons]; omega, by simpa using h1, by intro i hi; omega, rfl⟩
    | true =>
      cases h2 : alloc (n + 1) with
      | false =>
        right
        have hs : mapInnerStep alloc (acc, { allocError := false, allocs := n }) kv =
            (acc, { allocError := true, allocs := n + 2 }) := by
          simp [mapInnerStep, enif_alloc_binary_compat, h1, h2]
        rw [hs, mapInner_foldl_sticky]
        refine ⟨rfl, 1, by simp only [List.length_cons]; omega, h2, ?_, rfl⟩
        intro i hi
        have : i = 0 := by omega
        subst this; simpa using h1
      | true =>
        have hs : mapInnerStep alloc (acc, { allocError := false, allocs := n }) kv =
            (Term.cons (kvTerm kv) acc, { allocError := false, allocs := n + 2 }) := by
          simp [mapInnerStep, enif_alloc_binary_compat, h1, h2, kvTerm, enif_make_tuple2]
        have h01 : ∀ i, i < 2 → alloc (n + i) = true := by
          intro i hi
          have : i = 0 ∨ i = 1 := by omega
          rcases this with rfl | rfl
          · simpa using h1
          · exact h2
        rw [hs]
        rcases ih (Term.cons (kvTerm kv) acc) (n + 2) with ⟨heq, hall⟩ | hf
        · left
          refine ⟨?_, ?_⟩
          · rw [heq]
            simp [consAll, List.foldr_append, Nat.mul_succ, Nat.add_assoc]
            omega
          · intro i hi
            by_cases hi2 : i < 2
            · exact h01 i hi2
            · have := hall (i - 2) (by simp only [List.length_cons] at hi; omega)
              rwa [Nat.add_assoc, Nat.add_sub_cancel' (by omega)] at this
        · right
          have := failedAt_shift hf h01
          exact failedAt_mono this (by simp only [List.length_cons]; omega)

theorem mapInnerLoop_sticky (alloc : Nat → Bool) (fr : List MapResult) (fl : LoopFlags)
    (h : fl.allocError = true) : mapInnerLoop alloc fr fl = (Term.nil, fl) := by
  obtain ⟨e, n⟩ := fl
  simp only at h
  subst h
  exact mapInner_foldl_sticky alloc fr.reverse Term.nil n

theorem mapInnerLoop_spec (alloc : Nat → Bool) (fr : List MapResult) (n : Nat) :
    (mapInnerLoop alloc fr { allocError := false, allocs := n } =
        (pairsTerm fr, { allocError := false, allocs := n + 2 * fr.length }) ∧
      ∀ i, i < 2 * fr.length → alloc (n + i) = true) ∨
    FailedAt alloc n (2 * fr.length)
      (mapInnerLoop alloc fr { allocError := false, allocs := n }).2 := by
  have h := mapInner_foldl alloc fr.reverse Term.nil n
  simp only [List.reverse_reverse, List.length_reverse, consAll_nil] at h
  exact h

theorem mapOuter_foldl_sticky (alloc : Nat → Bool) (l : List (List MapResult)) (outer : Term)
    (fl : LoopFlags) (h : fl.allocError = true) :
    l.foldl (mapOuterStep alloc) (outer, fl) = (outer, fl) := by
  induction l with
  | nil => rfl
  | cons fr l ih =>
    rw [List.foldl_cons]
    have : mapOuterStep alloc (outer, fl) fr = (outer, fl) := by
      simp [mapOuterStep, mapInnerLoop_sticky alloc fr fl h, h]
    rw [this, ih]

theorem mapOuter_foldl (alloc : Nat → Bool) (l : List (List MapResult)) :
    ∀ (outer : Term) (n : Nat),
      (l.foldl (mapOuterStep alloc) (outer, { allocError := false, allocs := n }) =
          (consAll (l.reverse.map pairsTerm) outer,
            { allocError := false, allocs := n + 2 * pairCount l }) ∧
        ∀ i, i < 2 * pairCount l → alloc (n + i) = true) ∨
      FailedAt alloc n (2 * pairCount l)
        (l.foldl (mapOuterStep alloc) (outer, { allocError := false, allocs := n })).2 := by
  induction l with
  | nil => intro outer n; left; simp [consAll, pairCount]
  | cons fr l ih =>
    intro outer n
    rw [List.foldl_cons]
    have hcount : pairCount (fr :: l) = fr.length + pairCount l := by simp [pairCount]
    rcases mapInnerLoop_spec alloc fr n with ⟨heq, hall⟩ | hf
    · have hs : mapOuterStep alloc (outer, { allocError := false, allocs := n }) fr =
          (Term.cons (pairsTerm fr) outer, { allocError := false, allocs := n + 2 * fr.length }) := by
        simp [mapOuterStep, heq]
      rw [hs]
      rcases ih (Term.cons (pairsTerm fr) outer) (n + 2 * fr.length) with ⟨heq2, hall2⟩ | hf2
      · left
        refine ⟨?_, ?_⟩
        · rw [heq2, hcount]
          simp [consAll, List.foldr_append, Nat.mul_add, Nat.add_assoc]
        · intro i hi
          by_cases hi2 : i < 2 * fr.length
          · exact hall i hi2
          · have := hall2 (i - 2 * fr.length) (by rw [hcount] at hi; omega)
            rwa [Nat.add_assoc, Nat.add_sub_cancel' (by omega)] at this
      · right
        have := failedAt_shift hf2 hall
        exact failedAt_mono this (by rw [hcount]; omega)
    · right
      have hs : mapOuterStep alloc (outer, { allocError := false, allocs := n }) fr =
          (outer, (mapInnerLoop alloc fr { allocError := false, allocs := n }).2) := by
        simp [mapOuterStep, hf.1]
      rw [hs, mapOuter_foldl_sticky alloc l outer _ hf.1]
      exact failedAt_mono hf (by rw [hcount]; omega)

theorem mapOuterLoop_spec (alloc : Nat → Bool) (mapResults : List (List MapResult)) :
    (mapOuterLoop alloc mapResults =
        (mapResultsTerm mapResults,
          { allocError := false, allocs := 2 * pairCount mapResults }) ∧
      ∀ i, i < 2 * pairCount mapResults → alloc i = true) ∨
    FailedAt alloc 0 (2 * pairCount mapResults) (mapOuterLoop alloc mapResults).2 := by
  have h := mapOuter_foldl alloc mapResults.reverse Term.nil 0
  have hc : pairCount mapResults.reverse = pairCount mapResults := by
    simp [pairCount, List.sum_reverse]
  simp only [List.reverse_reverse, consAll_nil, hc, Nat.zero_add] at h
  exact h

theorem reduce_foldl_sticky (alloc : Nat → Bool) (l : List Bytes) (acc : Term) (n : Nat) :
    l.foldl (reduceStep alloc) (acc, { allocError := true, allocs := n }) =
      (acc, { allocError := true, allocs := n }) := by
  induction l with
  | nil => rfl
  | cons r l ih => simpa [List.foldl_cons, reduceStep] using ih

theorem reduce_foldl (alloc : Nat → Bool) (l : List Bytes) :
    ∀ (acc : Term) (n : Nat),
      (l.foldl (reduceStep alloc) (acc, { allocError := false, allocs := n }) =
          (consAll (l.reverse.map Term.binary) acc, { allocError := false, allocs := n + l.length }) ∧
        ∀ i, i < l.length → alloc (n + i) = true) ∨
      FailedAt alloc n l.length
        (l.foldl (reduceStep alloc) (acc, { allocError := false, allocs := n })).2 := by
  induction l with
  | nil => intro acc n; left; simp [consAll]
  | cons r l ih =>
    intro acc n
    rw [List.foldl_cons]
    cases h1 : alloc n with
    | false =>
      right
      have hs : reduceStep alloc (acc, { allocError := false, allocs := n }) r =
          (acc, { allocError := true, allocs := n + 1 }) := by
        simp [reduceStep, enif_alloc_binary_compat, h1]
      rw [hs, reduce_foldl_sticky]
      exact ⟨rfl, 0, by simp only [List.length_cons]; omega, by simpa using h1,
        by intro i hi; omega, rfl⟩
    | true =>
      have hs : reduceStep alloc (acc, { allocError := false, allocs := n }) r =
          (Term.cons (Term.binary r) acc, { allocError := false, allocs := n + 1 }) := by
        simp [reduceStep, enif_alloc_binary_compat, h1]
      have h0 : ∀ i, i < 1 → alloc (n + i) = true := by
        intro i hi
        have : i = 0 := by omega
        subst this; simpa using h1
      rw [hs]
      rcases ih (Term.cons (Term.binary r) acc) (n + 1) with ⟨heq, hall⟩ | hf
      · left
        refine ⟨?_, ?_⟩
        · rw [heq]
          simp [consAll, List.foldr_append, Nat.add_assoc]
          omega
        · intro i hi
          by_cases hi2 : i < 1
          · exact h0 i hi2
          · have := hall (i - 1) (by simp only [List.length_cons] at hi; omega)
            rwa [Nat.add_assoc, Nat.add_sub_cancel' (by omega)] at this
      · right
        have := failedAt_shift hf h0
        exact failedAt_mono this (by simp only [List.length_cons]; omega)

theorem reduceLoop_spec (alloc : Nat → Bool) (results : List Bytes) :
    (reduceLoop alloc results =
        (Term.ofList (results.map Term.binary),
          { allocError := false, allocs := results.length }) ∧
      ∀ i, i < results.length → alloc i = true) ∨
    FailedAt alloc 0 results.length (reduceLoop alloc results).2 := by
  have h := reduce_foldl alloc results.reverse Term.nil 0
  simp only [List.reverse_reverse, List.length_reverse, consAll_nil, Nat.zero_add] at h
  exact h

theorem makeError_eq (alloc : Nat → Bool) (n : Nat) (msg : Bytes) :
    makeError alloc n msg =
      if alloc n = true then Term.tuple [Term.atom "error", Term.binary msg]
      else Term.atom "error" := by
  cases h : alloc n <;> simp [makeError, enif_alloc_binary_compat, h, ATOM_ERROR, enif_make_tuple2]

theorem mapResultsToTerm_spec (alloc : Nat → Bool) (mapResults : List (List MapResult)) :
    ((∀ i, i < 2 * pairCount mapResults → alloc i = true) ∧
      mapResultsToTerm alloc mapResults = Term.tuple [Term.atom "ok", mapResultsTerm mapResults]) ∨
    (∃ j, j < 2 * pairCount mapResults ∧ alloc j = false ∧ (∀ i, i < j → alloc i = true) ∧
      mapResultsToTerm alloc mapResults = makeError alloc (j + 1) allocFailureMsg) := by
  rcases mapOuterLoop_spec alloc mapResults with ⟨heq, hall⟩ | hf
  · left
    exact ⟨hall, by simp [mapResultsToTerm, heq, enif_make_tuple2, ATOM_OK]⟩
  · right
    obtain ⟨h1, j, hj, h2, h3, h4⟩ := hf
    refine ⟨j, hj, by simpa using h2, fun i hi => by simpa using h3 i hi, ?_⟩
    simp only [Nat.zero_add] at h4
    simp [mapResultsToTerm, h1, h4]

theorem reductionsToTerm_spec (alloc : Nat → Bool) (results : List Bytes) :
    ((∀ i, i < results.length → alloc i = true) ∧
      reductionsToTerm alloc results =
        Term.tuple [Term.atom "ok", Term.ofList (results.map Term.binary)]) ∨
    (∃ j, j < results.length ∧ alloc j = false ∧ (∀ i, i < j → alloc i = true) ∧
      reductionsToTerm alloc results = makeError alloc (j + 1) allocFailureMsg) := by
  rcases reduceLoop_spec alloc results with ⟨heq, hall⟩ | hf
  · left
    exact ⟨hall, by simp [reductionsToTerm, heq, enif_make_tuple2, ATOM_OK]⟩
  · right
    obtain ⟨h1, j, hj, h2, h3, h4⟩ := hf
    refine ⟨j, hj, by simpa using h2, fun i hi => by simpa using h3 i hi, ?_⟩
    simp only [Nat.zero_add] at h4
    simp [reductionsToTerm, h1, h4]

theorem makeError_ne_ok (alloc : Nat → Bool) (n : Nat) (msg : Bytes) (l : Term) :
    makeError alloc n msg ≠ Term.tuple [Term.atom "ok", l] := by
  rw [makeError_eq]
  split
  · intro h
    injection h with h
    injection h with h _
    injection h with h
    exact absurd h (by decide)
  · intro h; cases h

theorem reduceInputLoop_pairsTerm (s : List MapResult) :
    ∀ keys values : List Bytes,
      reduceInputLoop (pairsTerm s) keys values =
        some (keys ++ s.map Prod.fst, values ++ s.map Prod.snd) := by
  induction s with
  | nil => intro keys values; simp [pairsTerm, Term.ofList, reduceInputLoop]
  | cons kv s ih =>
    intro keys values
    have h := ih (keys ++ [kv.1]) (values ++ [kv.2])
    simp only [pairsTerm] at h
    simp [pairsTerm, Term.ofList, reduceInputLoop, enif_get_tuple,
      enif_inspect_iolist_as_binary, h]

theorem mem_mapAssign_fresh (m : List (Bytes × Nat)) (k : Bytes) (v : Nat)
    (hk : k ∉ mapKeys m) (e : Bytes × Nat) :
    e ∈ mapAssign m k v ↔ e = (k, v) ∨ e ∈ m := by
  induction m with
  | nil => simp [mapAssign]
  | cons x rest ih =>
    have hx : k ≠ x.1 := by
      intro h; apply hk; simp [mapKeys, h]
    have hrest : k ∉ mapKeys rest := by
      intro h; apply hk; simp only [mapKeys, List.map_cons, List.mem_cons]; right; exact h
    unfold mapAssign
    rw [if_neg hx]
    split
    · simp
    · simp only [List.mem_cons, ih hrest]
      tauto

theorem mem_keys_mapAssign (m : List (Bytes × Nat)) (k : Bytes) (v : Nat) (k1 : Bytes) :
    k1 ∈ mapKeys (mapAssign m k v) ↔ k1 = k ∨ k1 ∈ mapKeys m := by
  induction m with
  | nil => simp [mapAssign, mapKeys]
  | cons x rest ih =>
    unfold mapAssign
    split
    · rename_i h
      simp only [mapKeys, List.map_cons, List.mem_cons, ← h]
      tauto
    · split
      · simp [mapKeys]
      · simp only [mapKeys, List.map_cons, List.mem_cons] at ih ⊢
        rw [ih]; tauto

theorem mapFind_mapAssign_self (m : List (Bytes × Nat)) (k : Bytes) (v : Nat) :
    mapFind (mapAssign m k v) k = some v := by
  induction m with
  | nil => simp [mapAssign, mapFind]
  | cons x rest ih =>
    unfold mapAssign
    split
    · simp [mapFind]
    · split
      · simp [mapFind]
      · rename_i h _
        simp only [mapFind] at ih ⊢
        rw [List.find?_cons_of_neg _ (by simpa using fun h1 => h h1.symm)]
        exact ih

theorem mapFind_mapAssign_other (m : List (Bytes × Nat)) (k : Bytes) (v : Nat) (k1 : Bytes)
    (hne : k1 ≠ k) : mapFind (mapAssign m k v) k1 = mapFind m k1 := by
  induction m with
  | nil => simp [mapAssign, mapFind, hne.symm]
  | cons x rest ih =>
    unfold mapAssign
    split
    · rename_i h
      have hx : x.1 ≠ k1 := by rw [← h]; exact hne.symm
      simp [mapFind, hne.symm, hx]
    · split
      · simp only [mapFind]
        rw [List.find?_cons_of_neg _ (by simpa using hne.symm)]
      · simp only [mapFind] at ih ⊢
        by_cases hx : x.1 = k1
        · rw [List.find?_cons_of_pos _ (by simpa using hx),
            List.find?_cons_of_pos _ (by simpa using hx)]
        · rw [List.find?_cons_of_neg _ (by simpa using hx),
            List.find?_cons_of_neg _ (by simpa using hx)]
          exact ih

theorem mem_mapErase (m : List (Bytes × Nat)) (k : Bytes) (e : Bytes × Nat) :
    e ∈ mapErase m k ↔ e ∈ m ∧ e.1 ≠ k := by
  simp [mapErase]

theorem mem_mapKeys (m : List (Bytes × Nat)) (k : Bytes) :
    k ∈ mapKeys m ↔ ∃ v, (k, v) ∈ m := by
  simp [mapKeys]

theorem registryInv_init : RegistryInv NifState.init Lifetimes.init :=
  { entries := by intro id ctx; simp [NifState.init, Lifetimes.init]
    keys := by intro ctx id; simp [NifState.init, Lifetimes.init]
    seen := by intro ctx id h; simp [Lifetimes.init] at h
    distinct := by intro c1 c2 id h; simp [Lifetimes.init] at h }

theorem registryInv_liveIds {s : NifState} {g : Lifetimes} (h : RegistryInv s g) (id : Bytes) :
    id ∈ mapKeys s.contexts ↔ id ∈ g.liveIds := by
  rw [mem_mapKeys]
  simp only [Lifetimes.liveIds, List.mem_map, Prod.exists, exists_eq_right]
  constructor
  · rintro ⟨v, hv⟩; exact ⟨v, (h.entries id v).1 hv⟩
  · rintro ⟨v, hv⟩; exact ⟨v, (h.entries id v).2 hv⟩

theorem registryInv_step {s : NifState} {g g1 : Lifetimes} (h : RegistryInv s g)
    (c : RegistryCall) (hg : g.step c = some g1) (hf : callFresh g c = true) :
    ∃ s1, applyCall s c = some s1 ∧ RegistryInv s1 g1 := by
  cases c with
  | register ctx refTerm =>
    simp only [Lifetimes.step] at hg
    split at hg
    · cases hg
    · rename_i hseen
      have hnl : ∀ id, (ctx, id) ∉ g.live := fun id hl => hseen (h.seen ctx id hl)
      cases hi : enif_inspect_iolist_as_binary refTerm with
      | none =>
        rw [hi] at hg
        simp only [Option.some.injEq] at hg
        subst hg
        refine ⟨s, by simp [applyCall, registerContext, hi], ?_⟩
        exact { entries := h.entries, keys := h.keys,
                seen := fun c id hl => List.mem_cons_of_mem _ (h.seen c id hl),
                distinct := h.distinct }
      | some id =>
        rw [hi] at hg
        simp only [Option.some.injEq] at hg
        subst hg
        have hfresh : id ∉ g.liveIds := by
          simpa [callFresh, hi] using hf
        have hfk : id ∉ mapKeys s.contexts := fun hk => hfresh ((registryInv_liveIds h id).1 hk)
        have happ : applyCall s (RegistryCall.register ctx refTerm) =
            some { contexts := mapAssign s.contexts id ctx
                   ctxKey := fun c => if c = ctx then some id else s.ctxKey c } := by
          simp [applyCall, registerContext, hi]
        refine ⟨_, happ, ?_⟩
        refine { entries := ?_, keys := ?_, seen := ?_, distinct := ?_ }
        · intro id1 c1
          simp only [mem_mapAssign_fresh _ _ _ hfk, List.mem_cons, Prod.mk.injEq]
          rw [h.entries id1 c1]; tauto
        · intro c1 id1
          simp only [List.mem_cons, Prod.mk.injEq]
          by_cases hc : c1 = ctx
          · subst hc
            simp only [if_true, Option.some.injEq, true_and]
            constructor
            · intro e; left; exact e.symm
            · rintro (e | e)
              · exact e.symm
              · exact absurd e (hnl id1)
          · simp only [if_neg hc, hc, false_and, false_or]
            exact h.keys c1 id1
        · intro c1 id1 hl
          simp only [List.mem_cons, Prod.mk.injEq] at hl
          rcases hl with ⟨rfl, _⟩ | hl
          · exact List.mem_cons_self _ _
          · exact List.mem_cons_of_mem _ (h.seen c1 id1 hl)
        · intro c1 c2 id1 h1 h2
          simp only [List.mem_cons, Prod.mk.injEq] at h1 h2
          have hlive : ∀ c, (c, id) ∉ g.live := by
            intro c hl
            apply hfresh
            simp only [Lifetimes.liveIds, List.mem_map]
            exact ⟨(c, id), hl, rfl⟩
          rcases h1 with ⟨rfl, rfl⟩ | h1 <;> rcases h2 with ⟨rfl, e2⟩ | h2
          · rfl
          · exact absurd h2 (hlive c2)
          · subst e2; exact absurd h1 (hlive c1)
          · exact h.distinct c1 c2 id1 h1 h2
  | unregister ctx =>
    simp only [Lifetimes.step] at hg
    split at hg
    · rename_i hlive
      simp only [Option.some.injEq] at hg
      subst hg
      simp only [List.mem_map, Prod.exists, exists_and_right, exists_eq_right] at hlive
      obtain ⟨id, hid⟩ := hlive
      have hkey : s.ctxKey ctx = some id := (h.keys ctx id).2 hid
      have happ : applyCall s (RegistryCall.unregister ctx) =
          some { contexts := mapErase s.contexts id
                 ctxKey := fun c => if c = ctx then none else s.ctxKey c } := by
        simp [applyCall, unregisterContext, hkey]
      refine ⟨_, happ, ?_⟩
      refine { entries := ?_, keys := ?_, seen := ?_, distinct := ?_ }
      · intro id1 c1
        simp only [mem_mapErase, List.mem_filter, decide_eq_true_eq, h.entries id1 c1]
        constructor
        · rintro ⟨hl, hne⟩
          refine ⟨hl, ?_⟩
          rintro rfl
          have e1 := (h.keys c1 id1).2 hl
          rw [hkey] at e1
          exact hne (Option.some.inj e1).symm
        · rintro ⟨hl, hne⟩
          refine ⟨hl, ?_⟩
          rintro rfl
          exact hne (h.distinct c1 ctx id1 hl hid)
      · intro c1 id1
        simp only [List.mem_filter, decide_eq_true_eq]
        by_cases hc : c1 = ctx
        · subst hc; simp
        · simp only [if_neg hc, h.keys c1 id1]
          tauto
      · intro c1 id1 hl
        simp only [List.mem_filter] at hl
        exact h.seen c1 id1 hl.1
      · intro c1 c2 id1 h1 h2
        simp only [List.mem_filter] at h1 h2
        exact h.distinct c1 c2 id1 h1.1 h2.1
    · cases hg

theorem registryInv_run (calls : List RegistryCall) :
    ∀ (s : NifState) (g gEnd : Lifetimes), RegistryInv s g →
      Lifetimes.run g calls = some gEnd → freshIds g calls = true →
      ∃ sEnd, runCalls s calls = some sEnd ∧ RegistryInv sEnd gEnd := by
  induction calls with
  | nil =>
    intro s g gEnd h hg _
    simp only [Lifetimes.run, Option.some.injEq] at hg
    subst hg
    exact ⟨s, rfl, h⟩
  | cons c cs ih =>
    intro s g gEnd h hg hf
    simp only [Lifetimes.run] at hg
    cases hstep : g.step c with
    | none => rw [hstep] at hg; cases hg
    | some g1 =>
      rw [hstep] at hg
      simp only [freshIds, hstep, Bool.and_eq_true] at hf
      obtain ⟨s1, hs1, hinv1⟩ := registryInv_step h c hstep hf.1
      obtain ⟨sEnd, hrun, hinvEnd⟩ := ih s1 g1 gEnd hinv1 hg hf.2
      exact ⟨sEnd, by simp [runCalls, hs1, hrun], hinvEnd⟩

theorem lifetimes_run_take (calls : List RegistryCall) :
    ∀ (g gEnd : Lifetimes) (n : Nat), Lifetimes.run g calls = some gEnd →
      freshIds g calls = true →
      ∃ gn, Lifetimes.run g (calls.take n) = some gn ∧ freshIds g (calls.take n) = true := by
  induction calls with
  | nil => intro g gEnd n h _; exact ⟨g, by simp [Lifetimes.run], by simp [freshIds]⟩
  | cons c cs ih =>
    intro g gEnd n h hf
    cases n with
    | zero => exact ⟨g, by simp [Lifetimes.run], by simp [freshIds]⟩
    | succ n =>
      simp only [Lifetimes.run] at h
      cases hstep : g.step c with
      | none => rw [hstep] at h; cases h
      | some g1 =>
        rw [hstep] at h
        simp only [freshIds, hstep, Bool.and_eq_true] at hf
        obtain ⟨gn, h1, h2⟩ := ih g1 gEnd n h hf.2
        exact ⟨gn, by simp [Lifetimes.run, hstep, h1], by simp [freshIds, hstep, hf.1, h2]⟩

theorem enif_get_int_of_is_list (t : Term) (h : enif_is_list t = true) : enif_get_int t = none := by
  cases t <;> simp_all [enif_is_list, enif_get_int]

theorem isNifOutcome_makeError (alloc : Nat → Bool) (n : Nat) (msg : Bytes) :
    IsNifOutcome alloc (NifResult.term (makeError alloc n msg)) := by
  rw [makeError_eq]
  cases h : alloc n
  · right; right; right
    exact ⟨by simp, n, h⟩
  · right; right; left
    exact ⟨msg, by simp⟩

theorem isNifOutcome_catchExc (alloc : Nat → Bool) (n : Nat) (e : EngineExc) :
    IsNifOutcome alloc (catchExc alloc n e) := by
  cases e <;> exact isNifOutcome_makeError alloc n _

theorem isNifOutcome_ok (alloc : Nat → Bool) (t : Term) :
    IsNifOutcome alloc (NifResult.term (enif_make_tuple2 ATOM_OK t)) :=
  Or.inr (Or.inl ⟨t, rfl⟩)

theorem isNifOutcome_mapResultsToTerm (alloc : Nat → Bool) (r : List (List MapResult)) :
    IsNifOutcome alloc (NifResult.term (mapResultsToTerm alloc r)) := by
  rcases mapResultsToTerm_spec alloc r with ⟨_, h⟩ | ⟨j, _, _, _, h⟩
  · rw [h]; exact Or.inr (Or.inl ⟨_, rfl⟩)
  · rw [h]; exact isNifOutcome_makeError alloc _ _

theorem isNifOutcome_reductionsToTerm (alloc : Nat → Bool) (r : List Bytes) :
    IsNifOutcome alloc (NifResult.term (reductionsToTerm alloc r)) := by
  rcases reductionsToTerm_spec alloc r with ⟨_, h⟩ | ⟨j, _, _, _, h⟩
  · rw [h]; exact Or.inr (Or.inl ⟨_, rfl⟩)
  · rw [h]; exact isNifOutcome_makeError alloc _ _

theorem isNifOutcome_reductionToTerm (alloc : Nat → Bool) (r : Bytes) :
    IsNifOutcome alloc (NifResult.term (reductionToTerm alloc r)) := by
  unfold reductionToTerm
  simp only
  split
  · exact isNifOutcome_makeError alloc _ _
  · exact isNifOutcome_ok alloc _

theorem isNifOutcome_doMapDoc (eng : Engine) (alloc : Nat → Bool) (argv0 argv1 argv2 : Term) :
    IsNifOutcome alloc (doMapDoc eng alloc argv0 argv1 argv2) := by
  unfold doMapDoc
  split
  · exact Or.inl rfl
  · split
    · exact Or.inl rfl
    · split
      · exact Or.inl rfl
      · split
        · exact isNifOutcome_catchExc alloc _ _
        · exact isNifOutcome_mapResultsToTerm alloc _

theorem isNifOutcome_reduceBody (eng : Engine) (alloc : Nat → Bool) (ctx : Nat) (n : Int)
    (keys values : List Bytes) : IsNifOutcome alloc (reduceBody eng alloc ctx n keys values) := by
  unfold reduceBody
  split
  · split
    · exact isNifOutcome_catchExc alloc _ _
    · exact isNifOutcome_reductionsToTerm alloc _
  · split
    · exact isNifOutcome_catchExc alloc _ _
    · exact isNifOutcome_reductionToTerm alloc _

theorem isNifOutcome_doReduce (eng : Engine) (alloc : Nat → Bool) (argv0 argv1 argv2 : Term) :
    IsNifOutcome alloc (doReduce eng alloc argv0 argv1 argv2) := by
  unfold doReduce
  split
  · exact Or.inl rfl
  · simp only
    split
    · exact Or.inl rfl
    · split
      · exact Or.inl rfl
      · exact isNifOutcome_reduceBody eng alloc _ _ _ _

theorem isNifOutcome_doRereduce (eng : Engine) (alloc : Nat → Bool) (argv0 argv1 argv2 : Term) :
    IsNifOutcome alloc (doRereduce eng alloc argv0 argv1 argv2) := by
  unfold doRereduce
  split
  · exact Or.inl rfl
  · split
    · exact Or.inl rfl
    · split
      · exact Or.inl rfl
      · split
        · exact Or.inl rfl
        · split
          · exact isNifOutcome_catchExc alloc _ _
          · exact isNifOutcome_reductionToTerm alloc _

theorem isNifOutcome_startMapContext (eng : Engine) (alloc : Nat → Bool) (s : NifState)
    (ctx : Nat) (argv0 argv1 : Term) :
    IsNifOutcome alloc (startMapContext eng alloc s ctx argv0 argv1).1 := by
  unfold startMapContext
  split
  · exact Or.inl rfl
  · split
    · exact isNifOutcome_catchExc alloc _ _
    · split
      · exact isNifOutcome_catchExc alloc _ _
      · exact isNifOutcome_ok alloc _

theorem isNifOutcome_startReduceContext (eng : Engine) (alloc : Nat → Bool) (s : NifState)
    (ctx : Nat) (argv0 argv1 : Term) :
    IsNifOutcome alloc (startReduceContext eng alloc s ctx argv0 argv1).1 := by
  unfold startReduceContext
  split
  · exact Or.inl rfl
  · split
    · exact isNifOutcome_catchExc alloc _ _
    · split
      · exact isNifOutcome_catchExc alloc _ _
      · exact isNifOutcome_ok alloc _

theorem doMapDoc_eq (eng : Engine) (alloc : Nat → Bool) (argv0 argv1 argv2 : Term)
    (ctx : Nat) (doc meta : Bytes) (mapResults : List (List MapResult))
    (h0 : enif_get_resource argv0 = some ctx)
    (h1 : enif_inspect_iolist_as_binary argv1 = some doc)
    (h2 : enif_inspect_iolist_as_binary argv2 = some meta)
    (hR : eng.mapDoc ctx doc meta = Except.ok mapResults) :
    doMapDoc eng alloc argv0 argv1 argv2 = NifResult.term (mapResultsToTerm alloc mapResults) := by
  simp [doMapDoc, h0, h1, h2, hR]

theorem doReduce_eq (eng : Engine) (alloc : Nat → Bool) (argv0 kvs other : Term)
    (ctx : Nat) (keys values : List Bytes) (results : List Bytes)
    (h0 : enif_get_resource argv0 = some ctx)
    (hk1 : enif_is_list kvs = true)
    (hk2 : reduceInputLoop kvs [] [] = some (keys, values))
    (hr : eng.runReduce ctx keys values = Except.ok results) :
    doReduce eng alloc argv0 kvs other = NifResult.term (reductionsToTerm alloc results) := by
  simp [doReduce, h0, enif_get_int_of_is_list kvs hk1, hk1, hk2, reduceBody, hr]

theorem terminator_foldl (taskStartTime : Nat → Int) (now maxTaskDuration : Int)
    (l : List (Bytes × Nat)) :
    ∀ acc : List Nat,
      l.foldl (terminatorStep taskStartTime now maxTaskDuration) acc =
        acc ++ (l.filter (fun e =>
          decide (0 < taskStartTime e.2 ∧ maxTaskDuration ≤ now - taskStartTime e.2))).map
            Prod.snd := by
  induction l with
  | nil => intro acc; simp
  | cons e l ih =>
    intro acc
    rw [List.foldl_cons, ih]
    by_cases h1 : 0 < taskStartTime e.2
    · by_cases h2 : maxTaskDuration ≤ now - taskStartTime e.2
      · simp [terminatorStep, h1, h2, List.filter_cons]
      · simp [terminatorStep, h1, h2, List.filter_cons]
    · simp [terminatorStep, h1, List.filter_cons]

/-- C1: when every allocation succeeds, `doMapDoc` returns `{ok, L}` where `L`
is the list of the lists of `{Key, Value}` binaries of the engine result: one
inner list per function in the same order, the pairs of each in the same order
with the same bytes, an empty inner list for a function that emitted nothing,
and the empty list for an empty result. -/
theorem doMapDoc_preserves_results (eng : Engine) (alloc : Nat → Bool)
    (argv0 argv1 argv2 : Term) (ctx : Nat) (doc meta : Bytes)
    (mapResults : List (List MapResult))
    (halloc : ∀ i, alloc i = true)
    (h0 : enif_get_resource argv0 = some ctx)
    (h1 : enif_inspect_iolist_as_binary argv1 = some doc)
    (h2 : enif_inspect_iolist_as_binary argv2 = some meta)
    (hR : eng.mapDoc ctx doc meta = Except.ok mapResults) :
    doMapDoc eng alloc argv0 argv1 argv2 =
      NifResult.term (Term.tuple [Term.atom "ok",
        Term.ofList (mapResults.map (fun funResults =>
          Term.ofList (funResults.map (fun kv =>
            Term.tuple [Term.binary kv.1, Term.binary kv.2]))))]) := by
  rw [doMapDoc_eq eng alloc argv0 argv1 argv2 ctx doc meta mapResults h0 h1 h2 hR]
  rcases mapResultsToTerm_spec alloc mapResults with ⟨_, h⟩ | ⟨j, _, hj, _, _⟩
  · rw [h]; rfl
  · rw [halloc j] at hj; cases hj

/-- C1 at the sample engine: one function that emits a pair and one that emits
nothing. -/
theorem doMapDoc_preserves_results_witness :
    doMapDoc sampleEngine (fun _ => true) sampleCtx (Term.binary []) (Term.binary []) =
      NifResult.term (Term.tuple [Term.atom "ok",
        Term.cons
          (Term.cons (Term.tuple [Term.binary (strBytes "k1"), Term.binary (strBytes "v1")])
            Term.nil)
          (Term.cons Term.nil Term.nil)]) :=
  doMapDoc_preserves_results sampleEngine (fun _ => true) sampleCtx (Term.binary [])
    (Term.binary []) 7 [] [] [[(strBytes "k1", strBytes "v1")], []] (fun _ => rfl) rfl rfl rfl rfl

/-- C2: the list of 2-tuples that the inner loop of `doMapDoc` builds from a
sequence of pairs, all allocations succeeding, is parsed by the input loop of
`doReduce` into the keys and the values of the sequence, in order. -/
theorem encode_decode_roundtrip (alloc : Nat → Bool) (s : List MapResult) (n : Nat)
    (halloc : ∀ i, alloc i = true) :
    reduceInputLoop (mapInnerLoop alloc s { allocError := false, allocs := n }).1 [] [] =
      some (s.map Prod.fst, s.map Prod.snd) := by
  rcases mapInnerLoop_spec alloc s n with ⟨h, _⟩ | hf
  · rw [h]
    simpa using reduceInputLoop_pairsTerm s [] []
  · obtain ⟨i, _, hi⟩ := failedAt_exists_false hf
    rw [halloc] at hi; cases hi

/-- C2 on two pairs and on the empty sequence. -/
theorem encode_decode_roundtrip_witness :
    reduceInputLoop
        (mapInnerLoop (fun _ => true)
          [(strBytes "k1", strBytes "v1"), (strBytes "k2", strBytes "v2")]
          { allocError := false, allocs := 0 }).1 [] [] =
      some ([strBytes "k1", strBytes "k2"], [strBytes "v1", strBytes "v2"]) ∧
    reduceInputLoop (mapInnerLoop (fun _ => true) [] { allocError := false, allocs := 0 }).1
        [] [] = some ([], []) :=
  ⟨encode_decode_roundtrip (fun _ => true)
      [(strBytes "k1", strBytes "v1"), (strBytes "k2", strBytes "v2")] 0 (fun _ => rfl),
    encode_decode_roundtrip (fun _ => true) [] 0 (fun _ => rfl)⟩

/-- C3, the claim as stated fails: two contexts are registered under the same
id and the first is unregistered; the second is still live, and the registry is
empty. -/
theorem registry_duplicate_id_counterexample :
    ∃ s g, runCalls NifState.init sampleCalls = some s ∧
      Lifetimes.run Lifetimes.init sampleCalls = some g ∧
      g.live = [(2, strBytes "k")] ∧ g.liveIds = [strBytes "k"] ∧ mapKeys s.contexts = [] :=
  ⟨_, _, rfl, rfl, rfl, rfl, rfl⟩

/-- C3, amended: for every sequence of `registerContext` and
`unregisterContext` calls in which every context is registered once and
unregistered at most once, afterwards, and no context is registered under the
id of a live context, after every step the calls have succeeded, the keys of
`contexts` are the ids of the live contexts, and every id is bound to its
context. -/
theorem registry_keys_eq_live_ids (calls : List RegistryCall) (gEnd : Lifetimes)
    (hdisc : Lifetimes.run Lifetimes.init calls = some gEnd)
    (hfresh : freshIds Lifetimes.init calls = true) (n : Nat) :
    ∃ s g, runCalls NifState.init (calls.take n) = some s ∧
      Lifetimes.run Lifetimes.init (calls.take n) = some g ∧
      (∀ id, id ∈ mapKeys s.contexts ↔ id ∈ g.liveIds) ∧
      (∀ id ctx, (id, ctx) ∈ s.contexts ↔ (ctx, id) ∈ g.live) := by
  obtain ⟨g, hg, hf⟩ := lifetimes_run_take calls Lifetimes.init gEnd n hdisc hfresh
  obtain ⟨s, hs, hinv⟩ :=
    registryInv_run (calls.take n) NifState.init Lifetimes.init g registryInv_init hg hf
  exact ⟨s, g, hs, hg, registryInv_liveIds hinv, hinv.entries⟩

/-- C3, amended, on two contexts with different ids, after the three calls. -/
theorem registry_keys_eq_live_ids_witness :
    ∃ s g, runCalls NifState.init (sampleCallsDistinct.take 3) = some s ∧
      Lifetimes.run Lifetimes.init (sampleCallsDistinct.take 3) = some g ∧
      (∀ id, id ∈ mapKeys s.contexts ↔ id ∈ g.liveIds) ∧
      (∀ id ctx, (id, ctx) ∈ s.contexts ↔ (ctx, id) ∈ g.live) :=
  registry_keys_eq_live_ids sampleCallsDistinct
    { live := [(2, strBytes "b")], seen := [2, 1] } rfl rfl 3

/-- C4, the claim as stated fails: registering context 2 under the id of
context 1 returns normally and binds the id to context 2. -/
theorem registerContext_duplicate_counterexample :
    ∃ s1, registerContext sampleState 2 (Term.binary (strBytes "k")) = Except.ok s1 ∧
      mapFind sampleState.contexts (strBytes "k") = some 1 ∧
      mapFind s1.contexts (strBytes "k") = some 2 :=
  ⟨_, rfl, rfl, rfl⟩

/-- C4, amended: for every registry state and every id present in it,
registering a context under that id returns normally, leaves the set of keys
and the binding of every other id as they were, and binds the id to the newly
registered context. -/
theorem registerContext_overwrites (s : NifState) (ctx : Nat) (refTerm : Term) (id : Bytes)
    (hid : enif_inspect_iolist_as_binary refTerm = some id)
    (hpresent : id ∈ mapKeys s.contexts) :
    ∃ s1, registerContext s ctx refTerm = Except.ok s1 ∧
      (∀ k, k ∈ mapKeys s1.contexts ↔ k ∈ mapKeys s.contexts) ∧
      mapFind s1.contexts id = some ctx ∧
      (∀ k, k ≠ id → mapFind s1.contexts k = mapFind s.contexts k) ∧
      s1.ctxKey ctx = some id := by
  refine ⟨{ contexts := mapAssign s.contexts id ctx
            ctxKey := fun c => if c = ctx then some id else s.ctxKey c }, ?_, ?_, ?_, ?_, ?_⟩
  · simp [registerContext, hid]
  · intro k
    rw [mem_keys_mapAssign]
    constructor
    · rintro (rfl | h)
      · exact hpresent
      · exact h
    · exact Or.inr
  · exact mapFind_mapAssign_self _ _ _
  · intro k hk
    exact mapFind_mapAssign_other _ _ _ _ hk
  · simp

/-- C4, amended, at the registry that holds context 1 under `k`. -/
theorem registerContext_overwrites_witness :
    ∃ s1, registerContext sampleState 2 (Term.binary (strBytes "k")) = Except.ok s1 ∧
      (∀ k, k ∈ mapKeys s1.contexts ↔ k ∈ mapKeys sampleState.contexts) ∧
      mapFind s1.contexts (strBytes "k") = some 2 ∧
      (∀ k, k ≠ strBytes "k" → mapFind s1.contexts k = mapFind sampleState.contexts k) ∧
      s1.ctxKey 2 = some (strBytes "k") :=
  registerContext_overwrites sampleState 2 (Term.binary (strBytes "k")) (strBytes "k") rfl
    (by decide)

/-- C5: one scan of the watchdog calls `terminateTask` on exactly the
registered contexts whose `taskStartTime` is positive (a task is running) and
for which `now - taskStartTime >= maxTaskDuration`, in the order of the map; a
context that has run for less than `maxTaskDuration`, and a context whose
`taskStartTime` is not positive, is not terminated; among start times that are
not negative, positive means different from the idle value 0. -/
theorem terminatorScan_spec (contexts : List (Bytes × Nat)) (taskStartTime : Nat → Int)
    (now maxTaskDuration : Int) :
    terminatorScan contexts taskStartTime now maxTaskDuration =
        (contexts.filter (fun e =>
          decide (0 < taskStartTime e.2 ∧ maxTaskDuration ≤ now - taskStartTime e.2))).map
            Prod.snd ∧
      (∀ ctx, ctx ∈ terminatorScan contexts taskStartTime now maxTaskDuration ↔
        (∃ key, (key, ctx) ∈ contexts) ∧ 0 < taskStartTime ctx ∧
          maxTaskDuration ≤ now - taskStartTime ctx) ∧
      (∀ ctx, now - taskStartTime ctx < maxTaskDuration →
        ctx ∉ terminatorScan contexts taskStartTime now maxTaskDuration) ∧
      (∀ ctx, taskStartTime ctx ≤ 0 →
        ctx ∉ terminatorScan contexts taskStartTime now maxTaskDuration) ∧
      (∀ ctx, 0 ≤ taskStartTime ctx →
        (ctx ∈ terminatorScan contexts taskStartTime now maxTaskDuration ↔
          (∃ key, (key, ctx) ∈ contexts) ∧ taskStartTime ctx ≠ 0 ∧
            maxTaskDuration ≤ now - taskStartTime ctx)) := by
  have heq : terminatorScan contexts taskStartTime now maxTaskDuration =
      (contexts.filter (fun e =>
        decide (0 < taskStartTime e.2 ∧ maxTaskDuration ≤ now - taskStartTime e.2))).map
          Prod.snd := by
    simpa [terminatorScan] using terminator_foldl taskStartTime now maxTaskDuration contexts []
  have hmem : ∀ ctx, ctx ∈ terminatorScan contexts taskStartTime now maxTaskDuration ↔
      (∃ key, (key, ctx) ∈ contexts) ∧ 0 < taskStartTime ctx ∧
        maxTaskDuration ≤ now - taskStartTime ctx := by
    intro ctx
    rw [heq]
    simp only [List.mem_map, List.mem_filter, decide_eq_true_eq, Prod.exists, exists_eq_right]
    constructor
    · rintro ⟨key, hk, h⟩; exact ⟨⟨key, hk⟩, h⟩
    · rintro ⟨⟨key, hk⟩, h⟩; exact ⟨key, hk, h⟩
  refine ⟨heq, hmem, ?_, ?_, ?_⟩
  · intro ctx h hin
    have := ((hmem ctx).1 hin).2.2
    omega
  · intro ctx h hin
    have := ((hmem ctx).1 hin).2.1
    omega
  · intro ctx h
    rw [hmem ctx]
    constructor
    · rintro ⟨hk, h1, h2⟩
      exact ⟨hk, by omega, h2⟩
    · rintro ⟨hk, h1, h2⟩
      exact ⟨hk, by omega, h2⟩

/-- C5 on three contexts at `now = 9000` with a timeout of 5000: one has run
for 8000, one for 1000, one is idle; only the first is terminated. -/
theorem terminatorScan_spec_witness :
    terminatorScan [(strBytes "a", 1), (strBytes "b", 2), (strBytes "c", 3)]
      (fun c => if c = 1 then 1000 else if c = 2 then 8000 else 0) 9000 5000 = [1] :=
  (terminatorScan_spec [(strBytes "a", 1), (strBytes "b", 2), (strBytes "c", 3)]
    (fun c => if c = 1 then 1000 else if c = 2 then 8000 else 0) 9000 5000).1.trans (by decide)

/-- C6: for a timeout of `T` milliseconds that fits 32 bits, the watchdog asks
to sleep for `T` milliseconds (1000 `T` microseconds) where `doSleep` is
`Sleep`, and for `T` microseconds only, a thousandth of it, where `doSleep` is
`usleep`. -/
theorem terminatorSleep_units (maxTaskDuration : Int) (hpos : 0 < maxTaskDuration)
    (hfit : maxTaskDuration < 4294967296) :
    terminatorSleep Platform.windows maxTaskDuration = 1000 * maxTaskDuration.toNat ∧
      terminatorSleep Platform.unix maxTaskDuration = maxTaskDuration.toNat ∧
      terminatorSleep Platform.unix maxTaskDuration ≠ 1000 * maxTaskDuration.toNat := by
  have hmod : maxTaskDuration % 4294967296 = maxTaskDuration :=
    Int.emod_eq_of_lt (le_of_lt hpos) hfit
  have hnat : 0 < maxTaskDuration.toNat := by omega
  refine ⟨?_, ?_, ?_⟩
  · simp [terminatorSleep, doSleep, hmod, Nat.mul_comm]
  · simp [terminatorSleep, doSleep, hmod]
  · simp only [terminatorSleep, doSleep, hmod]
    omega

/-- C6 at the initial value 5000 of `maxTaskDuration`: 5000000 microseconds
through `Sleep`, 5000 microseconds through `usleep`. -/
theorem terminatorSleep_units_witness :
    terminatorSleep Platform.windows 5000 = 1000 * 5000 ∧
      terminatorSleep Platform.unix 5000 = 5000 ∧
      terminatorSleep Platform.unix 5000 ≠ 1000 * 5000 :=
  terminatorSleep_units 5000 (by decide) (by decide)

/-- C7: in the 3-argument form with the index -1, `doReduce` does not call the
indexed `runReduce`: for every engine it does what the 2-argument form does,
run all the functions, and the sample engine gets the list of both
reductions. -/
theorem doReduce_index_minus_one (eng : Engine) (alloc : Nat → Bool) (ctx : Nat)
    (kvs : List MapResult) (other : Term) :
    doReduce eng alloc (Term.resource MAP_REDUCE_CTX_RES ctx) (Term.int (-1)) (pairsTerm kvs) =
        (match eng.runReduce ctx (kvs.map Prod.fst) (kvs.map Prod.snd) with
          | Except.error e => catchExc alloc 0 e
          | Except.ok results => NifResult.term (reductionsToTerm alloc results)) ∧
      doReduce eng alloc (Term.resource MAP_REDUCE_CTX_RES ctx) (Term.int (-1)) (pairsTerm kvs) =
        doReduce eng alloc (Term.resource MAP_REDUCE_CTX_RES ctx) (pairsTerm kvs) other ∧
      doReduce sampleEngine (fun _ => true) sampleCtx (Term.int (-1)) Term.nil =
        NifResult.term (Term.tuple [Term.atom "ok",
          Term.cons (Term.binary (strBytes "r1"))
            (Term.cons (Term.binary (strBytes "r2")) Term.nil)]) ∧
      doReduce sampleEngine (fun _ => true) sampleCtx (Term.int 1) Term.nil =
        NifResult.term (Term.tuple [Term.atom "ok", Term.binary (strBytes "r2")]) := by
  have hlist : enif_is_list (pairsTerm kvs) = true := by
    cases kvs <;> simp [pairsTerm, Term.ofList, enif_is_list]
  have hres : enif_get_resource (Term.resource MAP_REDUCE_CTX_RES ctx) = some ctx := by
    simp [enif_get_resource]
  have hparse := reduceInputLoop_pairsTerm kvs [] []
  simp only [List.nil_append] at hparse
  have h3 : doReduce eng alloc (Term.resource MAP_REDUCE_CTX_RES ctx) (Term.int (-1))
      (pairsTerm kvs) =
        (match eng.runReduce ctx (kvs.map Prod.fst) (kvs.map Prod.snd) with
          | Except.error e => catchExc alloc 0 e
          | Except.ok results => NifResult.term (reductionsToTerm alloc results)) := by
    simp [doReduce, hres, enif_get_int, hlist, hparse, reduceBody]
  have h2 : doReduce eng alloc (Term.resource MAP_REDUCE_CTX_RES ctx) (pairsTerm kvs) other =
        (match eng.runReduce ctx (kvs.map Prod.fst) (kvs.map Prod.snd) with
          | Except.error e => catchExc alloc 0 e
          | Except.ok results => NifResult.term (reductionsToTerm alloc results)) := by
    simp [doReduce, hres, enif_get_int_of_is_list _ hlist, hlist, hparse, reduceBody]
  exact ⟨h3, h3.trans h2.symm, rfl, rfl⟩

/-- C8, the claim as stated fails: when no allocation succeeds, the binary of
the message cannot be allocated either, and `doMapDoc` returns the bare atom
`error`, not the failure with the message. -/
theorem alloc_failure_bare_error_counterexample :
    doMapDoc sampleEngine (fun _ => false) sampleCtx (Term.binary []) (Term.binary []) =
        NifResult.term (Term.atom "error") ∧
      doMapDoc sampleEngine (fun _ => false) sampleCtx (Term.binary []) (Term.binary []) ≠
        NifResult.term (Term.tuple [Term.atom "error", Term.binary allocFailureMsg]) ∧
      doReduce sampleEngine (fun _ => false) sampleCtx Term.nil Term.nil =
        NifResult.term (Term.atom "error") :=
  by
  have h1 : doMapDoc sampleEngine (fun _ => false) sampleCtx (Term.binary [])
      (Term.binary []) = NifResult.term (Term.atom "error") := rfl
  refine ⟨h1, ?_, rfl⟩
  rw [h1]
  intro h
  injection h with h
  cases h

/-- C8, amended: `doMapDoc` and the unindexed `doReduce` return `{ok, List}`,
with the whole converted result, if and only if every allocation of the
conversion succeeded; if one fails, the first failure being call `j`, they
return what `makeError` makes of "memory allocation failure": `{error,
Message}` when the next allocation, of the message, succeeds, and the bare
atom `error` when it fails; no converted pair or reduction is returned. -/
theorem conversion_all_or_nothing (eng : Engine) (alloc : Nat → Bool)
    (argv0 argv1 argv2 kvs other : Term) (ctx : Nat) (doc meta : Bytes)
    (mapResults : List (List MapResult)) (keys values results : List Bytes)
    (h0 : enif_get_resource argv0 = some ctx)
    (h1 : enif_inspect_iolist_as_binary argv1 = some doc)
    (h2 : enif_inspect_iolist_as_binary argv2 = some meta)
    (hR : eng.mapDoc ctx doc meta = Except.ok mapResults)
    (hk1 : enif_is_list kvs = true)
    (hk2 : reduceInputLoop kvs [] [] = some (keys, values))
    (hr : eng.runReduce ctx keys values = Except.ok results) :
    (((∀ i, i < 2 * pairCount mapResults → alloc i = true) ∧
        doMapDoc eng alloc argv0 argv1 argv2 =
          NifResult.term (Term.tuple [Term.atom "ok", mapResultsTerm mapResults])) ∨
      (∃ j, j < 2 * pairCount mapResults ∧ alloc j = false ∧ (∀ i, i < j → alloc i = true) ∧
        doMapDoc eng alloc argv0 argv1 argv2 =
          NifResult.term
            (if alloc (j + 1) = true then
              Term.tuple [Term.atom "error", Term.binary allocFailureMsg]
            else Term.atom "error"))) ∧
    ((∃ l, doMapDoc eng alloc argv0 argv1 argv2 =
        NifResult.term (Term.tuple [Term.atom "ok", l])) ↔
      ∀ i, i < 2 * pairCount mapResults → alloc i = true) ∧
    (((∀ i, i < results.length → alloc i = true) ∧
        doReduce eng alloc argv0 kvs other =
          NifResult.term (Term.tuple [Term.atom "ok", Term.ofList (results.map Term.binary)])) ∨
      (∃ j, j < results.length ∧ alloc j = false ∧ (∀ i, i < j → alloc i = true) ∧
        doReduce eng alloc argv0 kvs other =
          NifResult.term
            (if alloc (j + 1) = true then
              Term.tuple [Term.atom "error", Term.binary allocFailureMsg]
            else Term.atom "error"))) ∧
    ((∃ l, doReduce eng alloc argv0 kvs other =
        NifResult.term (Term.tuple [Term.atom "ok", l])) ↔
      ∀ i, i < results.length → alloc i = true) := by
  rw [doMapDoc_eq eng alloc argv0 argv1 argv2 ctx doc meta mapResults h0 h1 h2 hR,
    doReduce_eq eng alloc argv0 kvs other ctx keys values results h0 hk1 hk2 hr]
  refine ⟨?_, ?_, ?_, ?_⟩
  · rcases mapResultsToTerm_spec alloc mapResults with ⟨hall, h⟩ | ⟨j, hj, hf, hlt, h⟩
    · exact Or.inl ⟨hall, by rw [h]⟩
    · exact Or.inr ⟨j, hj, hf, hlt, by rw [h, makeError_eq]⟩
  · rcases mapResultsToTerm_spec alloc mapResults with ⟨hall, h⟩ | ⟨j, hj, hf, hlt, h⟩
    · exact ⟨fun _ => hall, fun _ => ⟨_, by rw [h]⟩⟩
    · constructor
      · rintro ⟨l, hl⟩
        rw [h] at hl
        injection hl with hl
        exact absurd hl (makeError_ne_ok alloc _ _ l)
      · intro hall
        rw [hall j hj] at hf; cases hf
  · rcases reductionsToTerm_spec alloc results with ⟨hall, h⟩ | ⟨j, hj, hf, hlt, h⟩
    · exact Or.inl ⟨hall, by rw [h]⟩
    · exact Or.inr ⟨j, hj, hf, hlt, by rw [h, makeError_eq]⟩
  · rcases reductionsToTerm_spec alloc results with ⟨hall, h⟩ | ⟨j, hj, hf, hlt, h⟩
    · exact ⟨fun _ => hall, fun _ => ⟨_, by rw [h]⟩⟩
    · constructor
      · rintro ⟨l, hl⟩
        rw [h] at hl
        injection hl with hl
        exact absurd hl (makeError_ne_ok alloc _ _ l)
      · intro hall
        rw [hall j hj] at hf; cases hf

/-- C8, amended, at the sample engine when only the first allocation fails:
neither call returns `{ok, List}`. -/
theorem conversion_all_or_nothing_witness :
    ((∃ l, doMapDoc sampleEngine (fun i => decide (i ≠ 0)) sampleCtx (Term.binary [])
        (Term.binary []) = NifResult.term (Term.tuple [Term.atom "ok", l])) ↔
      ∀ i, i < 2 * pairCount [[(strBytes "k1", strBytes "v1")], []] →
        (fun i => decide (i ≠ 0)) i = true) ∧
    ((∃ l, doReduce sampleEngine (fun i => decide (i ≠ 0)) sampleCtx Term.nil Term.nil =
        NifResult.term (Term.tuple [Term.atom "ok", l])) ↔
      ∀ i, i < [strBytes "r1", strBytes "r2"].length → (fun i => decide (i ≠ 0)) i = true) :=
  have h := conversion_all_or_nothing sampleEngine (fun i => decide (i ≠ 0)) sampleCtx
    (Term.binary []) (Term.binary []) Term.nil Term.nil 7 [] []
    [[(strBytes "k1", strBytes "v1")], []] [] [] [strBytes "r1", strBytes "r2"]
    rfl rfl rfl rfl rfl rfl rfl
  ⟨h.2.1, h.2.2.2⟩

/-- C9, the claim as stated fails: a call of `doMapDoc` whose first argument is
not a context raises `badarg`, and a failure is reported by the bare atom
`error` when the message cannot be allocated. -/
theorem failure_not_tagged_counterexample :
    doMapDoc sampleEngine (fun _ => true) (Term.atom "no_context") (Term.binary [])
        (Term.binary []) = NifResult.badarg ∧
      doRereduce sampleEngine (fun _ => true) sampleCtx (Term.int 0) (Term.atom "no_list") =
        NifResult.badarg ∧
      doRereduce sampleEngine (fun _ => false) sampleCtx (Term.int 0) Term.nil =
        NifResult.term (Term.atom "error") :=
  ⟨rfl, rfl, rfl⟩

theorem first_failure_unique (alloc : Nat → Bool) (j k : Nat)
    (hj : alloc j = false) (hjlt : ∀ i, i < j → alloc i = true)
    (hk : alloc k = false) (hklt : ∀ i, i < k → alloc i = true) : j = k := by
  rcases Nat.lt_trichotomy j k with h | h | h
  · rw [hklt j h] at hj; cases hj
  · exact h
  · rw [hjlt k h] at hk; cases hk

theorem reduceBody_isTerm (eng : Engine) (alloc : Nat → Bool) (ctx : Nat) (n : Int)
    (keys values : List Bytes) : ∃ t, reduceBody eng alloc ctx n keys values = NifResult.term t := by
  unfold reduceBody
  split
  · split
    · rename_i e _
      cases e <;> exact ⟨_, rfl⟩
    · exact ⟨_, rfl⟩
  · split
    · rename_i e _
      cases e <;> exact ⟨_, rfl⟩
    · exact ⟨_, rfl⟩

theorem catchExc_eq (alloc : Nat → Bool) (n : Nat) (e : EngineExc) :
    catchExc alloc n e = NifResult.term (failureTerm alloc n (excMessage e)) := by
  cases e <;> simp [catchExc, makeError_eq, failureTerm, excMessage]

theorem reductionToTerm_eq (alloc : Nat → Bool) (result : Bytes) :
    reductionToTerm alloc result =
      if alloc 0 = true then Term.tuple [Term.atom "ok", Term.binary result]
      else failureTerm alloc 1 allocFailureMsg := by
  cases h : alloc 0 <;>
    simp [reductionToTerm, enif_alloc_binary_compat, h, makeError_eq, failureTerm,
      enif_make_tuple2, ATOM_OK]

/-- C9, amended: for every call of `startMapContext`, `startReduceContext`,
`doMapDoc`, `doReduce` and `doRereduce`, a failure by an error of the engine
(compilation, execution, `std::bad_alloc`), by a reference that is not an
iolist, or by an allocation failure of the conversion is returned as
`{error, Message}` with the message byte string, except that the bare atom
`error` is returned when the binary of the message cannot be allocated; a
failure by malformed arguments, and no other, raises `badarg`; every result is
`{ok, _}`, `{error, Message}`, the bare `error` or `badarg`. -/
theorem nif_outcomes (eng : Engine) (alloc : Nat → Bool) (s : NifState) (ctx : Nat)
    (argv0 argv1 argv2 : Term) :
    (IsNifOutcome alloc (startMapContext eng alloc s ctx argv0 argv1).1 ∧
      IsNifOutcome alloc (startReduceContext eng alloc s ctx argv0 argv1).1 ∧
      IsNifOutcome alloc (doMapDoc eng alloc argv0 argv1 argv2) ∧
      IsNifOutcome alloc (doReduce eng alloc argv0 argv1 argv2) ∧
      IsNifOutcome alloc (doRereduce eng alloc argv0 argv1 argv2)) ∧
    -- startMapContext and startReduceContext
    (((startMapContext eng alloc s ctx argv0 argv1).1 = NifResult.badarg ↔
        parseFunctions argv0 = none) ∧
      ((startReduceContext eng alloc s ctx argv0 argv1).1 = NifResult.badarg ↔
        parseFunctions argv0 = none) ∧
      (∀ fns e, parseFunctions argv0 = some fns → eng.initContext ctx fns = Except.error e →
        (startMapContext eng alloc s ctx argv0 argv1).1 =
            NifResult.term (failureTerm alloc 0 (excMessage e)) ∧
          (startReduceContext eng alloc s ctx argv0 argv1).1 =
            NifResult.term (failureTerm alloc 0 (excMessage e))) ∧
      (∀ fns u, parseFunctions argv0 = some fns → eng.initContext ctx fns = Except.ok u →
        enif_inspect_iolist_as_binary argv1 = none →
        (startMapContext eng alloc s ctx argv0 argv1).1 =
            NifResult.term (failureTerm alloc 0 (strBytes "invalid context reference")) ∧
          (startReduceContext eng alloc s ctx argv0 argv1).1 =
            NifResult.term (failureTerm alloc 0 (strBytes "invalid context reference")))) ∧
    -- doMapDoc
    ((doMapDoc eng alloc argv0 argv1 argv2 = NifResult.badarg ↔
        enif_get_resource argv0 = none ∨ enif_inspect_iolist_as_binary argv1 = none ∨
          enif_inspect_iolist_as_binary argv2 = none) ∧
      (∀ c doc meta e, enif_get_resource argv0 = some c →
        enif_inspect_iolist_as_binary argv1 = some doc →
        enif_inspect_iolist_as_binary argv2 = some meta →
        eng.mapDoc c doc meta = Except.error e →
        doMapDoc eng alloc argv0 argv1 argv2 =
          NifResult.term (failureTerm alloc 0 (excMessage e))) ∧
      (∀ c doc meta mapResults j, enif_get_resource argv0 = some c →
        enif_inspect_iolist_as_binary argv1 = some doc →
        enif_inspect_iolist_as_binary argv2 = some meta →
        eng.mapDoc c doc meta = Except.ok mapResults →
        j < 2 * pairCount mapResults → alloc j = false → (∀ i, i < j → alloc i = true) →
        doMapDoc eng alloc argv0 argv1 argv2 =
          NifResult.term (failureTerm alloc (j + 1) allocFailureMsg))) ∧
    -- doReduce
    ((doReduce eng alloc argv0 argv1 argv2 = NifResult.badarg ↔
        enif_get_resource argv0 = none ∨
          (enif_get_int argv1 = none ∧
            (enif_is_list argv1 = false ∨ reduceInputLoop argv1 [] [] = none)) ∨
          (enif_get_int argv1 ≠ none ∧
            (enif_is_list argv2 = false ∨ reduceInputLoop argv2 [] [] = none))) ∧
      (∀ c n kvs keys values, enif_get_resource argv0 = some c →
        (enif_get_int argv1 = none ∧ n = -1 ∧ kvs = argv1) ∨
          (enif_get_int argv1 = some n ∧ kvs = argv2) →
        enif_is_list kvs = true → reduceInputLoop kvs [] [] = some (keys, values) →
        (∀ e, n = -1 → eng.runReduce c keys values = Except.error e →
          doReduce eng alloc argv0 argv1 argv2 =
            NifResult.term (failureTerm alloc 0 (excMessage e))) ∧
        (∀ results j, n = -1 → eng.runReduce c keys values = Except.ok results →
          j < results.length → alloc j = false → (∀ i, i < j → alloc i = true) →
          doReduce eng alloc argv0 argv1 argv2 =
            NifResult.term (failureTerm alloc (j + 1) allocFailureMsg)) ∧
        (∀ e, n ≠ -1 → eng.runReduceNth c n keys values = Except.error e →
          doReduce eng alloc argv0 argv1 argv2 =
            NifResult.term (failureTerm alloc 0 (excMessage e))) ∧
        (∀ result, n ≠ -1 → eng.runReduceNth c n keys values = Except.ok result →
          alloc 0 = false →
          doReduce eng alloc argv0 argv1 argv2 =
            NifResult.term (failureTerm alloc 1 allocFailureMsg)))) ∧
    -- doRereduce
    ((doRereduce eng alloc argv0 argv1 argv2 = NifResult.badarg ↔
        enif_get_resource argv0 = none ∨ enif_get_int argv1 = none ∨
          enif_is_list argv2 = false ∨ rereduceInputLoop argv2 [] = none) ∧
      (∀ c n reductions e, enif_get_resource argv0 = some c → enif_get_int argv1 = some n →
        enif_is_list argv2 = true → rereduceInputLoop argv2 [] = some reductions →
        eng.runRereduce c n reductions = Except.error e →
        doRereduce eng alloc argv0 argv1 argv2 =
          NifResult.term (failureTerm alloc 0 (excMessage e))) ∧
      (∀ c n reductions result, enif_get_resource argv0 = some c →
        enif_get_int argv1 = some n → enif_is_list argv2 = true →
        rereduceInputLoop argv2 [] = some reductions →
        eng.runRereduce c n reductions = Except.ok result → alloc 0 = false →
        doRereduce eng alloc argv0 argv1 argv2 =
          NifResult.term (failureTerm alloc 1 allocFailureMsg))) := by
  refine ⟨⟨isNifOutcome_startMapContext eng alloc s ctx argv0 argv1,
    isNifOutcome_startReduceContext eng alloc s ctx argv0 argv1,
    isNifOutcome_doMapDoc eng alloc argv0 argv1 argv2,
    isNifOutcome_doReduce eng alloc argv0 argv1 argv2,
    isNifOutcome_doRereduce eng alloc argv0 argv1 argv2⟩, ⟨?_, ?_, ?_, ?_⟩, ⟨?_, ?_, ?_⟩,
    ⟨?_, ?_⟩, ⟨?_, ?_, ?_⟩⟩
  · cases hpf : parseFunctions argv0 with
    | none => simp [startMapContext, hpf]
    | some fns =>
      cases hic : eng.initContext ctx fns with
      | error e => simp [startMapContext, hpf, hic, catchExc_eq]
      | ok u =>
        cases hi : enif_inspect_iolist_as_binary argv1 <;>
          simp [startMapContext, hpf, hic, registerContext, hi, catchExc_eq]
  · cases hpf : parseFunctions argv0 with
    | none => simp [startReduceContext, hpf]
    | some fns =>
      cases hic : eng.initContext ctx fns with
      | error e => simp [startReduceContext, hpf, hic, catchExc_eq]
      | ok u =>
        cases hi : enif_inspect_iolist_as_binary argv1 <;>
          simp [startReduceContext, hpf, hic, registerContext, hi, catchExc_eq]
  · intro fns e hpf hic
    simp [startMapContext, startReduceContext, hpf, hic, catchExc_eq]
  · intro fns u hpf hic hi
    simp [startMapContext, startReduceContext, hpf, hic, registerContext, hi, catchExc_eq,
      excMessage]
  · cases h0 : enif_get_resource argv0 with
    | none => simp [doMapDoc, h0]
    | some c =>
      cases h1 : enif_inspect_iolist_as_binary argv1 with
      | none => simp [doMapDoc, h0, h1]
      | some doc =>
        cases h2 : enif_inspect_iolist_as_binary argv2 with
        | none => simp [doMapDoc, h0, h1, h2]
        | some meta =>
          cases hm : eng.mapDoc c doc meta <;> simp [doMapDoc, h0, h1, h2, hm, catchExc_eq]
  · intro c doc meta e h0 h1 h2 hm
    simp [doMapDoc, h0, h1, h2, hm, catchExc_eq]
  · intro c doc meta mapResults j h0 h1 h2 hm hj hf hlt
    rw [doMapDoc_eq eng alloc argv0 argv1 argv2 c doc meta mapResults h0 h1 h2 hm]
    rcases mapResultsToTerm_spec alloc mapResults with ⟨hall, _⟩ | ⟨k, hk, hkf, hklt, h⟩
    · rw [hall j hj] at hf; cases hf
    · rw [first_failure_unique alloc j k hf hlt hkf hklt, h, makeError_eq]; rfl
  · cases h0 : enif_get_resource argv0 with
    | none => simp [doReduce, h0]
    | some c =>
      cases hi : enif_get_int argv1 with
      | none =>
        cases hl : enif_is_list argv1 with
        | false => simp [doReduce, h0, hi, hl]
        | true =>
          cases hp : reduceInputLoop argv1 [] [] with
          | none => simp [doReduce, h0, hi, hl, hp]
          | some kv =>
            obtain ⟨t, ht⟩ := reduceBody_isTerm eng alloc c (-1) kv.1 kv.2
            simp [doReduce, h0, hi, hl, hp, ht]
      | some n =>
        cases hl : enif_is_list argv2 with
        | false => simp [doReduce, h0, hi, hl]
        | true =>
          cases hp : reduceInputLoop argv2 [] [] with
          | none => simp [doReduce, h0, hi, hl, hp]
          | some kv =>
            obtain ⟨t, ht⟩ := reduceBody_isTerm eng alloc c n kv.1 kv.2
            simp [doReduce, h0, hi, hl, hp, ht]
  · intro c n kvs keys values h0 hsel hl hp
    have hbody : doReduce eng alloc argv0 argv1 argv2 =
        reduceBody eng alloc c n keys values := by
      rcases hsel with ⟨hi, rfl, rfl⟩ | ⟨hi, rfl⟩
      · simp [doReduce, h0, hi, hl, hp]
      · simp [doReduce, h0, hi, hl, hp]
    rw [hbody]
    refine ⟨?_, ?_, ?_, ?_⟩
    · intro e hn hr
      simp [reduceBody, hn, hr, catchExc_eq]
    · intro results j hn hr hj hf hlt
      have hb : reduceBody eng alloc c n keys values =
          NifResult.term (reductionsToTerm alloc results) := by
        simp [reduceBody, hn, hr]
      rw [hb]
      rcases reductionsToTerm_spec alloc results with ⟨hall, _⟩ | ⟨k, hk, hkf, hklt, h⟩
      · rw [hall j hj] at hf; cases hf
      · rw [first_failure_unique alloc j k hf hlt hkf hklt, h, makeError_eq]; rfl
    · intro e hn hr
      simp [reduceBody, hn, hr, catchExc_eq]
    · intro result hn hr ha
      simp [reduceBody, hn, hr, reductionToTerm_eq, ha]
  · cases h0 : enif_get_resource argv0 with
    | none => simp [doRereduce, h0]
    | some c =>
      cases hi : enif_get_int argv1 with
      | none => simp [doRereduce, h0, hi]
      | some n =>
        cases hl : enif_is_list argv2 with
        | false => simp [doRereduce, h0, hi, hl]
        | true =>
          cases hp : rereduceInputLoop argv2 [] with
          | none => simp [doRereduce, h0, hi, hl, hp]
          | some reductions =>
            cases hr : eng.runRereduce c n reductions <;>
              simp [doRereduce, h0, hi, hl, hp, hr, catchExc_eq]
  · intro c n reductions e h0 hi hl hp hr
    simp [doRereduce, h0, hi, hl, hp, hr, catchExc_eq]
  · intro c n reductions result h0 hi hl hp hr ha
    simp [doRereduce, h0, hi, hl, hp, hr, reductionToTerm_eq, ha]

/-- C9, amended, at the sample engine: the index 5 is out of range, the engine
throws, and `doReduce` returns `{error, <<"invalid reduce function
number">>}`. -/
theorem nif_outcomes_witness :
    doReduce sampleEngine (fun _ => true) sampleCtx (Term.int 5) Term.nil =
      NifResult.term
        (failureTerm (fun _ => true) 0 (strBytes "invalid reduce function number")) :=
  ((nif_outcomes sampleEngine (fun _ => true) sampleState 7 sampleCtx (Term.int 5)
      Term.nil).2.2.2.1.2 7 5 Term.nil [] [] rfl (Or.inr ⟨rfl, rfl⟩) rfl rfl).2.2.1
    (EngineExc.mapReduceError (strBytes "invalid reduce function number")) (by decide) rfl

end MapReduceNif
